import Mathlib

/-!
Verification of the Kabo game server (`src/server/server.js`), shallowly
embedded in Lean 4.  JavaScript arrays are lists (push appends at the end,
pop removes the last element, unshift prepends, splice removes in place),
socket ids and phases are strings, client-supplied indices are integers,
and the cryptographic shuffle is an arbitrary permutation parameter.
Handlers return the room after the call together with an optional error
message; a thrown error leaves the room exactly as it was at the moment of
the throw, matching the catch-and-acknowledge structure of the source.
-/

namespace Kabo

/-- A playing card `{r, s}` with rank and suit strings. -/
structure Card where
  r : String
  s : String
deriving DecidableEq, Repr, Inhabited

def suits : List String := ["S", "H", "D", "C"]

def ranks : List String := ["A","2","3","4","5","6","7","8","9","10","J","Q","K"]

/-- Source `makeDeck()`: all 52 cards, suit-major order. -/
def makeDeck : List Card :=
  (suits.map (fun s => ranks.map (fun r => { r := r, s := s }))).flatten

/-- Model of `parseInt` on the numeric rank strings (0 on anything that is not a
rank, where the source would produce NaN — no card carries such a rank). -/
def parseRank (r : String) : Int :=
  if r = "2" then 2 else if r = "3" then 3 else if r = "4" then 4
  else if r = "5" then 5 else if r = "6" then 6 else if r = "7" then 7
  else if r = "8" then 8 else if r = "9" then 9 else if r = "10" then 10
  else 0

/-- Source `baseValue(card)`: A=1, J=11, Q=12, K=13, numeric ranks at face value. -/
def baseValue (card : Card) : Int :=
  if card.r = "A" then 1
  else if card.r = "J" then 11
  else if card.r = "Q" then 12
  else if card.r = "K" then 13
  else parseRank card.r

/-- Source `scoreValue(card)`: K of hearts / diamonds scores -1, otherwise `baseValue`. -/
def scoreValue (card : Card) : Int :=
  if card.r = "K" ∧ (card.s = "H" ∨ card.s = "D") then -1
  else baseValue card

/-- Source `isPowerCard(card)`: ranks 7,8,9,10,J,Q,K trigger powers. -/
def isPowerCard (card : Card) : Bool :=
  ["7","8","9","10","J","Q","K"].contains card.r

/-- Source `sameRank(a, b)` for two present cards. -/
def sameRank (a b : Card) : Bool := a.r == b.r

/-- A seated player. -/
structure Player where
  socketId : String
  name : String
  peeksLeft : Int
  hand : List Card
deriving DecidableEq, Repr, Inhabited

/-- Field `room.activeDraw`: the freshly drawn card, not yet committed. -/
structure ActiveDraw where
  card : Card
deriving DecidableEq, Repr, Inhabited

/-- Field `room.pending`: the King power's preview-then-confirm descriptor. -/
structure Pending where
  type : String
  playerSocketId : String
  myIndex : Int
  oppIndex : Int
deriving DecidableEq, Repr, Inhabited

/-- One row of the final scoring table. -/
structure ScoreEntry where
  name : String
  score : Int
deriving DecidableEq, Repr, Inhabited

/-- Field `room.ended`: the final scoring result. -/
structure Ended where
  scores : List ScoreEntry
  winnerName : String
deriving DecidableEq, Repr, Inhabited

/-- Valentine side-content state carried by the room. -/
structure ValState where
  noClicks : Int
  accepted : Bool
deriving DecidableEq, Repr, Inhabited

/-- Field `room.centerPower`: a power card sitting on the center pile whose owner
may still use it. -/
structure CenterPower where
  card : Card
  ownerSocketId : String
deriving DecidableEq, Repr, Inhabited

/-- The room aggregate, mirroring the object built in `room:create`. -/
structure Room where
  id : String
  players : List Player
  started : Bool
  turnIndex : Nat
  drawPile : List Card
  discardPile : List Card
  phase : String
  activeDraw : Option ActiveDraw
  caboCalledBy : Option String
  lastTurnFor : Option String
  skipNextFor : Option String
  pending : Option Pending
  log : List String
  ended : Option Ended
  valentineUnlocked : Bool
  valState : ValState
  centerPower : Option CenterPower
deriving DecidableEq, Repr, Inhabited

/-- Source expression `room.players[room.turnIndex]?.socketId ?? null`. -/
def currentTurnSocket (room : Room) : Option String :=
  (room.players.get? room.turnIndex).map Player.socketId

/-- Score sum of a hand (`hand.reduce((sum, c) => sum + scoreValue(c), 0)`). -/
def handScoreSum (hand : List Card) : Int :=
  (hand.map scoreValue).sum

/-- Source `computeHandSum(room, socketId)`; `none` when the player is not seated. -/
def computeHandSum (room : Room) (socketId : String) : Option Int :=
  (room.players.find? (fun x => x.socketId == socketId)).map (fun p => handScoreSum p.hand)

/-- Model of `Array.prototype.findIndex` (as an `Option`al index): the first index
whose element satisfies the predicate. -/
def jsFindIndex (pred : Player → Bool) : List Player → Option Nat
  | [] => none
  | a :: as => if pred a then some 0 else (jsFindIndex pred as).map (· + 1)

/-- Name of the player at an index, empty when the seat does not exist
(used only for log strings). -/
def playerNameAt (room : Room) (i : Nat) : String :=
  ((room.players.get? i).map Player.name).getD ""

/-- The per-player score rows of `scores(room)` before sorting. -/
def scoreEntries (room : Room) : List ScoreEntry :=
  room.players.map (fun p => { name := p.name, score := handScoreSum p.hand })

/-- Source `scores(room)`: rows sorted ascending by score with JavaScript's stable
sort (`(a,b) => a.score - b.score`); the winner is the first row.  A stable
insertion sort realises exactly the ECMAScript stable-sort semantics.  The
source crashes on an empty player list; the model returns an empty winner
name there (never reached from a started room). -/
def scores (room : Room) : Ended :=
  let s := (scoreEntries room).insertionSort (fun a b => a.score ≤ b.score)
  { scores := s,
    winnerName := match s with | [] => "" | e :: _ => e.name }

/-- A card as revealed to a client: identity plus both numeric projections. -/
structure RevealedCard where
  r : String
  s : String
  base : Int
  score : Int
deriving DecidableEq, Repr, Inhabited

def revealCard (c : Card) : RevealedCard :=
  { r := c.r, s := c.s, base := baseValue c, score := scoreValue c }

/-- One player as projected into the broadcast state. -/
structure PubPlayer where
  socketId : String
  name : String
  peeksLeft : Int
  hand : List (Option RevealedCard)
  handCount : Nat
  isMe : Bool
deriving DecidableEq, Repr, Inhabited

/-- The full redacted view broadcast as `room:update`. -/
structure PubState where
  id : String
  started : Bool
  phase : String
  players : List PubPlayer
  turnSocketId : Option String
  drawCount : Nat
  discardCount : Nat
  discardTop : Option RevealedCard
  caboCalledBy : Option String
  lastTurnFor : Option String
  log : List String
  ended : Option Ended
  valentineUnlocked : Bool
  valState : ValState
deriving DecidableEq, Repr, Inhabited

/-- Model of `array.slice(-n)`: the last `n` elements (all of them when shorter). -/
def jsSliceLast (n : Nat) (l : List String) : List String :=
  l.drop (l.length - n)

/-- The per-player projection inside `publicState`'s `room.players.map`. -/
def pubPlayerOf (phase viewerSocketId : String) (p : Player) : PubPlayer :=
  { socketId := p.socketId
    name := p.name
    peeksLeft := p.peeksLeft
    hand := if phase = "ENDED"
      then p.hand.map (fun c => some (revealCard c))
      else p.hand.map (fun _ => (none : Option RevealedCard))
    handCount := p.hand.length
    isMe := p.socketId == viewerSocketId }

/-- Source `publicState(room, viewerSocketId)`: hands are null placeholders unless
the phase is ENDED, in which case every hand is revealed with base and
score values.  The active draw never appears here. -/
def publicState (room : Room) (viewerSocketId : String) : PubState :=
  let players := room.players.map (pubPlayerOf room.phase viewerSocketId)
  { id := room.id
    started := room.started
    phase := room.phase
    players := players
    turnSocketId := if room.started then currentTurnSocket room else none
    drawCount := room.drawPile.length
    discardCount := room.discardPile.length
    discardTop := room.discardPile.getLast?.map revealCard
    caboCalledBy := room.caboCalledBy
    lastTurnFor := room.lastTurnFor
    log := jsSliceLast 14 room.log
    ended := room.ended
    valentineUnlocked := room.valentineUnlocked
    valState := room.valState }

/-! ## Mutating room operations

Each handler takes the room (plus the caller's socket id and payload) and
returns the room after the call together with `none` on success or
`some msg` for the thrown error.  Where the source shuffles, the handler
receives the shuffle outcome as a function parameter `sh`. -/

/-- Model of JS `name || default`, then `.slice(0, 16)`. -/
def defaultedName (name_ dflt : String) : String :=
  (if name_ = "" then dflt else name_).take 16

/-- The room object built by `room:create`, with the host seated. -/
def createdRoom (id sid name_ : String) : Room :=
  let hostName := defaultedName name_ "Host"
  { id := id
    players := [{ socketId := sid, name := hostName, peeksLeft := 2, hand := [] }]
    started := false
    turnIndex := 0
    drawPile := []
    discardPile := []
    phase := "LOBBY"
    activeDraw := none
    caboCalledBy := none
    lastTurnFor := none
    skipNextFor := none
    pending := none
    log := [hostName ++ " created room " ++ id ++ "."]
    ended := none
    valentineUnlocked := false
    valState := { noClicks := 0, accepted := false }
    centerPower := none }

/-- Handler for `room:join`. -/
def roomJoin (room : Room) (sid name_ : String) : Room × Option String :=
  if room.players.length ≥ 2 then (room, some "Room full")
  else
    let pName := defaultedName name_ "Player 2"
    let r1 := { room with
      players := room.players ++ [({ socketId := sid, name := pName, peeksLeft := 2, hand := [] } : Player)] }
    ({ r1 with log := r1.log ++ [playerNameAt r1 1 ++ " joined."] }, none)

/-- Four `deck.pop()` calls: the hand lists the popped cards in pop order,
and the deck loses its last four cards. -/
def dealFour (deck : List Card) : List Card × List Card :=
  (deck.reverse.take 4, deck.take (deck.length - 4))

/-- The dealing loop of `startGame`: each player in order receives four
pops from the (shrinking) deck and two peeks. -/
def dealAll (players : List Player) (deck : List Card) : List Player × List Card :=
  match players with
  | [] => ([], deck)
  | p :: rest =>
      let h := (dealFour deck).1
      let d := (dealFour deck).2
      let rec_ := dealAll rest d
      ({ p with hand := h, peeksLeft := 2 } :: rec_.1, rec_.2)

/-- Source `startGame(room)`, with the shuffled deck given by `sh makeDeck`. -/
def startGame (room : Room) (sh : List Card → List Card) : Room × Option String :=
  if room.players.length ≠ 2 then (room, some "Need 2 players")
  else
    let deck := sh makeDeck
    let dealt := dealAll room.players deck
    ({ room with
        players := dealt.1
        drawPile := dealt.2
        discardPile := []
        started := true
        turnIndex := 0
        phase := "PEEK"
        activeDraw := none
        caboCalledBy := none
        lastTurnFor := none
        skipNextFor := none
        pending := none
        log := ["Game started. Each player: peek 2 cards (flip for 3s)."]
        ended := none
        centerPower := none
        valentineUnlocked := false
        valState := { noClicks := 0, accepted := false } }, none)

/-- The `game:start` event: host-only, then `startGame`. -/
def gameStartHandler (room : Room) (sid : String) (sh : List Card → List Card) :
    Room × Option String :=
  if ((room.players.get? 0).map Player.socketId) ≠ some sid then
    (room, some "Only host can start")
  else startGame room sh

/-- Source `unlockValentine(room)` (the private emits are transport-only). -/
def unlockValentine (room : Room) : Room :=
  { room with valentineUnlocked := true
              log := room.log ++ ["Valentine page unlocked 💜"] }

/-- The `room:bypass` event. -/
def roomBypass (room : Room) (sid : String) : Room × Option String :=
  if ((room.players.get? 0).map Player.socketId) ≠ some sid then
    (room, some "Only host can bypass")
  else
    (unlockValentine { room with log := room.log ++ ["Host bypassed → Valentine unlocked."] },
     none)

/-- The `val:no` event. -/
def valNo (room : Room) : Room × Option String :=
  let n := room.valState.noClicks + 1
  ({ room with valState := { room.valState with noClicks := n }
               log := room.log ++ ["Valentine: NO clicked (" ++ toString n ++ ")."] }, none)

/-- The `val:yes` event. -/
def valYes (room : Room) : Room × Option String :=
  ({ room with valState := { room.valState with accepted := true }
               log := room.log ++ ["Valentine: YES clicked 💜"] }, none)

/-- Source `endRound(room)`: score, mark ENDED, unlock the valentine page. -/
def endRound (room : Room) : Room :=
  let e := scores room
  unlockValentine { room with
    phase := "ENDED"
    ended := some e
    log := room.log ++ ["Round ended. Winner: " ++ e.winnerName] }

/-- Source `advanceTurn(room)`: end the round when the last-turn holder just
finished, otherwise rotate (skipping a marked player exactly once) and
reset the per-turn state. -/
def advanceTurn (room : Room) : Room :=
  if room.lastTurnFor.isSome ∧ currentTurnSocket room = room.lastTurnFor then
    endRound room
  else
    let r1 := { room with turnIndex := (room.turnIndex + 1) % room.players.length }
    let r2 :=
      if room.skipNextFor.isSome ∧ room.skipNextFor = currentTurnSocket r1 then
        { r1 with log := r1.log ++ [playerNameAt r1 r1.turnIndex ++ " was skipped."]
                  skipNextFor := none
                  turnIndex := (r1.turnIndex + 1) % room.players.length }
      else r1
    { r2 with phase := "TURN_DRAW"
              activeDraw := none
              pending := none
              log := r2.log ++ [playerNameAt r2 r2.turnIndex ++ "'s turn."] }

/-- Source `maybeEnterCenterPower(room, owner, card)`: when the card just placed
on the center pile is a power card, open a center power for its owner. -/
def maybeEnterCenterPower (room : Room) (ownerSocketId : String) (card : Card) :
    Room × Bool :=
  if isPowerCard card then
    let ownerName :=
      ((room.players.find? (fun p => p.socketId == ownerSocketId)).map Player.name).getD ""
    ({ room with centerPower := some { card := card, ownerSocketId := ownerSocketId }
                 phase := "CENTER_POWER"
                 log := room.log ++ ["Center power available for " ++ ownerName ++ "."] },
     true)
  else (room, false)

/-- The `game:peek` event. -/
def gamePeek (room : Room) (sid : String) (index : Int) : Room × Option String :=
  if room.phase ≠ "PEEK" then (room, some "Peek phase ended")
  else
    match jsFindIndex (fun p => p.socketId == sid) room.players with
    | none => (room, some "Not in room")
    | some pIdx =>
      let p := room.players.getD pIdx default
      if p.peeksLeft ≤ 0 then (room, some "No peeks left")
      else if index < 0 ∨ index ≥ (p.hand.length : Int) then (room, some "Bad index")
      else
        let p1 := { p with peeksLeft := p.peeksLeft - 1 }
        let r1 := { room with players := room.players.set pIdx p1
                              log := room.log ++ [p.name ++ " peeked a card."] }
        if r1.players.all (fun x => x.peeksLeft == 0) then
          ({ r1 with phase := "TURN_DRAW"
                     log := r1.log ++
                       ["Peeks done. " ++ playerNameAt r1 r1.turnIndex ++ "'s turn."] }, none)
        else (r1, none)

/-- Source `refillDrawPileIfNeeded(room)`: rule is draw-pile only; when the draw
pile is empty the whole discard pile is reshuffled into it. -/
def refillDrawPileIfNeeded (room : Room) (sh : List Card → List Card) :
    Room × Option String :=
  if room.drawPile.length > 0 then (room, none)
  else if room.discardPile.length = 0 then (room, some "No cards left to draw")
  else
    ({ room with drawPile := sh room.discardPile
                 discardPile := []
                 log := room.log ++ ["Draw pile refilled from center pile (reshuffled)."] },
     none)

/-- The `turn:take` event (draw pile only). -/
def turnTake (room : Room) (sid : String) (source : Option String)
    (sh : List Card → List Card) : Room × Option String :=
  if ¬ (room.phase = "TURN_DRAW" ∨ room.phase = "LAST_TURN") then
    (room, some "Not in draw phase")
  else if currentTurnSocket room ≠ some sid then (room, some "Not your turn")
  else if room.activeDraw.isSome then (room, some "Already drew a card")
  else if room.pending.isSome then (room, some "Resolve pending action first")
  else if source.getD "" ≠ "" ∧ source ≠ some "draw" then
    (room, some "Rule: draw pile only.")
  else
    match refillDrawPileIfNeeded room sh with
    | (r, some e) => (r, some e)
    | (r1, none) =>
      match r1.drawPile.getLast? with
      | none => (r1, some "pop from empty draw pile")  -- dead when `sh` permutes
      | some card =>
        ({ r1 with drawPile := r1.drawPile.dropLast
                   activeDraw := some { card := card }
                   phase := "TURN_DECIDE"
                   log := r1.log ++ [playerNameAt r1 r1.turnIndex ++ " drew a card."] },
         none)

/-- The `turn:swap` event: the drawn card replaces a hand slot, the old
card goes to the center, and either a center power opens or the turn
advances. -/
def turnSwap (room : Room) (sid : String) (handIndex : Int) : Room × Option String :=
  if room.phase ≠ "TURN_DECIDE" then (room, some "Not in decide phase")
  else if currentTurnSocket room ≠ some sid then (room, some "Not your turn")
  else
    match room.activeDraw with
    | none => (room, some "No drawn card")
    | some ad =>
      if room.pending.isSome then (room, some "Resolve pending action first")
      else
        let p := room.players.getD room.turnIndex default
        if handIndex < 0 ∨ handIndex ≥ (p.hand.length : Int) then (room, some "Bad index")
        else
          let old := p.hand.getD handIndex.toNat default
          let p1 := { p with hand := p.hand.set handIndex.toNat ad.card }
          let r1 := { room with
            players := room.players.set room.turnIndex p1
            discardPile := room.discardPile ++ [old]
            activeDraw := none
            log := room.log ++ [p.name ++ " swapped and played a card to center."] }
          let ec := maybeEnterCenterPower r1 sid old
          if ec.2 then (ec.1, none) else (advanceTurn ec.1, none)

/-- The `turn:discardDrawn` event. -/
def turnDiscardDrawn (room : Room) (sid : String) : Room × Option String :=
  if room.phase ≠ "TURN_DECIDE" then (room, some "Not in decide phase")
  else if currentTurnSocket room ≠ some sid then (room, some "Not your turn")
  else
    match room.activeDraw with
    | none => (room, some "No drawn card")
    | some ad =>
      if room.pending.isSome then (room, some "Resolve pending action first")
      else
        let r1 := { room with
          discardPile := room.discardPile ++ [ad.card]
          activeDraw := none
          log := room.log ++
            [playerNameAt room room.turnIndex ++ " played drawn card to center."] }
        let ec := maybeEnterCenterPower r1 sid ad.card
        if ec.2 then (ec.1, none) else (advanceTurn ec.1, none)

/-- The `centerPower:skip` event. -/
def centerPowerSkip (room : Room) (sid : String) : Room × Option String :=
  if room.phase ≠ "CENTER_POWER" then (room, some "No center power to skip")
  else
    match room.centerPower with
    | none => (room, some "Not your center power")
    | some cp =>
      if cp.ownerSocketId ≠ sid then (room, some "Not your center power")
      else
        (advanceTurn { room with centerPower := none
                                 log := room.log ++ ["Center power skipped."] }, none)

/-- The `turn:cabo` event (threshold: hand total strictly below 10). -/
def turnCabo (room : Room) (sid : String) : Room × Option String :=
  if room.phase ≠ "TURN_DRAW" then (room, some "Call Cabo at start of your turn")
  else if currentTurnSocket room ≠ some sid then (room, some "Not your turn")
  else
    match computeHandSum room sid with
    | none => (room, some "Not in room")
    | some sum =>
      if sum ≥ 10 then (room, some "Cabo not allowed (total must be less than 10).")
      else
        let r1 := { room with caboCalledBy := some sid }
        match room.players.find? (fun p => !(p.socketId == sid)) with
        | none =>
          -- the source dereferences `opp.socketId` on `undefined` here: the
          -- caboCalledBy write has already happened when the error is thrown
          (r1, some "TypeError")
        | some opp =>
          ({ r1 with
              lastTurnFor := some opp.socketId
              log := r1.log ++ [playerNameAt r1 r1.turnIndex ++ " called CABO! " ++
                                opp.name ++ " gets last turn."]
              turnIndex := (jsFindIndex (fun p => p.socketId == opp.socketId) room.players).getD room.players.length
              phase := "LAST_TURN"
              activeDraw := none
              pending := none }, none)

/-- The `burn:attempt` event. -/
def burnAttempt (room : Room) (sid target : String) (index giveIndex : Int)
    (sh : List Card → List Card) : Room × Option String :=
  if room.phase = "LOBBY" ∨ room.phase = "PEEK" ∨ room.phase = "ENDED" then
    (room, some "Burn not allowed right now.")
  else
    match room.discardPile.getLast? with
    | none => (room, some "Nothing to burn on (center pile empty).")
    | some top =>
      match jsFindIndex (fun p => p.socketId == sid) room.players with
      | none => (room, some "Not in room")
      | some burnerIdx =>
        let burner := room.players.getD burnerIdx default
        let victimIdx := (burnerIdx + 1) % 2
        let victim := room.players.getD victimIdx default
        if target = "self" then
          if index < 0 ∨ index ≥ (burner.hand.length : Int) then (room, some "Bad index.")
          else
            let chosen := burner.hand.getD index.toNat default
            if sameRank chosen top then
              let burner1 := { burner with hand := burner.hand.eraseIdx index.toNat }
              ({ room with players := room.players.set burnerIdx burner1
                           discardPile := room.discardPile ++ [chosen]
                           log := room.log ++ [burner.name ++ " burned a card!"] }, none)
            else
              match refillDrawPileIfNeeded room sh with
              | (r, some e) => (r, some e)
              | (r1, none) =>
                match r1.drawPile.getLast? with
                | none => (r1, some "pop from empty draw pile")
                | some penalty =>
                  let b1 := r1.players.getD burnerIdx default
                  let b2 := { b1 with hand := b1.hand ++ [penalty] }
                  ({ r1 with
                      drawPile := r1.drawPile.dropLast
                      players := r1.players.set burnerIdx b2
                      log := r1.log ++
                        [b1.name ++ " tried to burn and missed (+1 penalty)."] }, none)
        else if target = "opp" then
          if index < 0 ∨ index ≥ (victim.hand.length : Int) then
            (room, some "Bad opponent index.")
          else if giveIndex < 0 ∨ giveIndex ≥ (burner.hand.length : Int) then
            (room, some "Choose a card to give.")
          else
            let chosenVictimCard := victim.hand.getD index.toNat default
            if sameRank chosenVictimCard top then
              let gift := burner.hand.getD giveIndex.toNat default
              let victim1 := { victim with
                hand := victim.hand.eraseIdx index.toNat ++ [gift] }
              let burner1 := { burner with hand := burner.hand.eraseIdx giveIndex.toNat }
              ({ room with
                  players := (room.players.set victimIdx victim1).set burnerIdx burner1
                  discardPile := room.discardPile ++ [chosenVictimCard]
                  log := room.log ++ [burner.name ++ " steal-burned successfully!"] }, none)
            else
              -- wrong steal burn: private reveal to the burner, then penalty
              match refillDrawPileIfNeeded room sh with
              | (r, some e) => (r, some e)
              | (r1, none) =>
                match r1.drawPile.getLast? with
                | none => (r1, some "pop from empty draw pile")
                | some penalty =>
                  let b1 := r1.players.getD burnerIdx default
                  let b2 := { b1 with hand := b1.hand ++ [penalty] }
                  ({ r1 with
                      drawPile := r1.drawPile.dropLast
                      players := r1.players.set burnerIdx b2
                      log := r1.log ++
                        [b1.name ++ " steal-burned wrongly (+1 penalty, revealed card)."] },
                   none)
        else (room, some "Bad target.")

/-- The `power:peekOwn` event (7/8). -/
def powerPeekOwn (room : Room) (sid : String) (handIndex : Int) : Room × Option String :=
  if currentTurnSocket room ≠ some sid then (room, some "Not your turn")
  else if room.phase ≠ "TURN_DECIDE" then (room, some "Not in decide phase")
  else
    match room.activeDraw with
    | none => (room, some "No drawn card")
    | some ad =>
      if ¬ (ad.card.r = "7" ∨ ad.card.r = "8") then (room, some "Not 7/8")
      else
        let p := room.players.getD room.turnIndex default
        if handIndex < 0 ∨ handIndex ≥ (p.hand.length : Int) then (room, some "Bad index")
        else
          (advanceTurn { room with
              discardPile := room.discardPile ++ [ad.card]
              activeDraw := none
              log := room.log ++ [p.name ++ " used 7/8 (peek own)."] }, none)

/-- The `power:peekOpp` event (9/10). -/
def powerPeekOpp (room : Room) (sid : String) (oppIndex : Int) : Room × Option String :=
  if currentTurnSocket room ≠ some sid then (room, some "Not your turn")
  else if room.phase ≠ "TURN_DECIDE" then (room, some "Not in decide phase")
  else
    match room.activeDraw with
    | none => (room, some "No drawn card")
    | some ad =>
      if ¬ (ad.card.r = "9" ∨ ad.card.r = "10") then (room, some "Not 9/10")
      else
        let opp := room.players.getD ((room.turnIndex + 1) % 2) default
        if oppIndex < 0 ∨ oppIndex ≥ (opp.hand.length : Int) then (room, some "Bad index")
        else
          (advanceTurn { room with
              discardPile := room.discardPile ++ [ad.card]
              activeDraw := none
              log := room.log ++
                [playerNameAt room room.turnIndex ++ " used 9/10 (peek opp)."] }, none)

/-- The `power:jackSkip` event. -/
def powerJackSkip (room : Room) (sid : String) : Room × Option String :=
  if currentTurnSocket room ≠ some sid then (room, some "Not your turn")
  else if room.phase ≠ "TURN_DECIDE" then (room, some "Not in decide phase")
  else
    match room.activeDraw with
    | none => (room, some "No drawn card")
    | some ad =>
      if ad.card.r ≠ "J" then (room, some "Not a Jack")
      else
        let opp := room.players.getD ((room.turnIndex + 1) % 2) default
        (advanceTurn { room with
            skipNextFor := some opp.socketId
            discardPile := room.discardPile ++ [ad.card]
            activeDraw := none
            log := room.log ++
              [playerNameAt room room.turnIndex ++ " used Jack (skip opp)."] }, none)

/-- The `power:queenUnseenSwap` event. -/
def powerQueenUnseenSwap (room : Room) (sid : String) (myIndex oppIndex : Int) :
    Room × Option String :=
  if currentTurnSocket room ≠ some sid then (room, some "Not your turn")
  else if room.phase ≠ "TURN_DECIDE" then (room, some "Not in decide phase")
  else
    match room.activeDraw with
    | none => (room, some "No drawn card")
    | some ad =>
      if ad.card.r ≠ "Q" then (room, some "Not a Queen")
      else
        let meIdx := room.turnIndex
        let oppIdx := (meIdx + 1) % 2
        let me := room.players.getD meIdx default
        let opp := room.players.getD oppIdx default
        if myIndex < 0 ∨ myIndex ≥ (me.hand.length : Int) then (room, some "Bad my index")
        else if oppIndex < 0 ∨ oppIndex ≥ (opp.hand.length : Int) then
          (room, some "Bad opp index")
        else
          let me1 := { me with
            hand := me.hand.set myIndex.toNat (opp.hand.getD oppIndex.toNat default) }
          let opp1 := { opp with
            hand := opp.hand.set oppIndex.toNat (me.hand.getD myIndex.toNat default) }
          (advanceTurn { room with
              players := (room.players.set meIdx me1).set oppIdx opp1
              discardPile := room.discardPile ++ [ad.card]
              activeDraw := none
              log := room.log ++ [me.name ++ " used Queen (unseen swap)."] }, none)

/-- The `power:kingPreview` event: validates and opens the pending
confirmation (the previews themselves are private emits). -/
def powerKingPreview (room : Room) (sid : String) (myIndex oppIndex : Int) :
    Room × Option String :=
  if currentTurnSocket room ≠ some sid then (room, some "Not your turn")
  else if room.phase ≠ "TURN_DECIDE" then (room, some "Not in decide phase")
  else
    match room.activeDraw with
    | none => (room, some "No drawn card")
    | some ad =>
      if room.pending.isSome then (room, some "Already pending")
      else if ad.card.r ≠ "K" then (room, some "Not a King")
      else
        let me := room.players.getD room.turnIndex default
        let opp := room.players.getD ((room.turnIndex + 1) % 2) default
        if myIndex < 0 ∨ myIndex ≥ (me.hand.length : Int) then (room, some "Bad my index")
        else if oppIndex < 0 ∨ oppIndex ≥ (opp.hand.length : Int) then
          (room, some "Bad opp index")
        else
          ({ room with pending := some { type := "KING_CONFIRM", playerSocketId := sid,
                                         myIndex := myIndex, oppIndex := oppIndex } }, none)

/-- Model of the JavaScript `undefined` value as stored into an array slot
by an out-of-range element assignment.  It is represented by a sentinel card
with empty rank and suit, which never occurs in `makeDeck`. -/
def undefinedCard : Card := { r := "", s := "" }

/-- Model of the JavaScript array read `a[i]`: out-of-range (or negative)
indices yield `undefined`. -/
def jsRead (l : List Card) (i : Int) : Card :=
  if i < 0 then undefinedCard else l.getD i.toNat undefinedCard

/-- Model of the JavaScript array element assignment `a[i] = v`: in range it
overwrites the slot; at or past the end it **extends the array** to length
`i + 1`, filling any gap with `undefined` holes; a negative index sets a
non-element property and leaves the array contents untouched. -/
def jsWrite (l : List Card) (i : Int) (v : Card) : List Card :=
  if i < 0 then l
  else if i.toNat < l.length then l.set i.toNat v
  else l ++ List.replicate (i.toNat - l.length) undefinedCard ++ [v]

/-- The `power:kingConfirm` event: perform or cancel the seen swap, then
discard the drawn King and advance.  The source re-validates nothing here:
the pending indices were checked by `power:kingPreview` against the hand
lengths of that moment, but `burn:attempt` can shrink a hand while the
confirmation is pending, so `me.hand[myIndex]` may be out of range by the
time the swap runs — the JavaScript assignment then extends `me.hand` and
stores `undefined` into the opponent's slot, which `jsWrite`/`jsRead`
reproduce. -/
def powerKingConfirm (room : Room) (sid : String) (confirm : Bool) : Room × Option String :=
  if currentTurnSocket room ≠ some sid then (room, some "Not your turn")
  else if room.phase ≠ "TURN_DECIDE" then (room, some "Not in decide phase")
  else
    match room.activeDraw with
    | none => (room, some "No drawn card")
    | some ad =>
      match room.pending with
      | none => (room, some "No pending king action")
      | some pend =>
        if pend.type ≠ "KING_CONFIRM" then (room, some "No pending king action")
        else if pend.playerSocketId ≠ sid then (room, some "Not your pending action")
        else
          let meIdx := room.turnIndex
          let oppIdx := (meIdx + 1) % 2
          let me := room.players.getD meIdx default
          let opp := room.players.getD oppIdx default
          let r1 :=
            if confirm then
              let me1 := { me with
                hand := jsWrite me.hand pend.myIndex (jsRead opp.hand pend.oppIndex) }
              let opp1 := { opp with
                hand := jsWrite opp.hand pend.oppIndex (jsRead me.hand pend.myIndex) }
              { room with players := (room.players.set meIdx me1).set oppIdx opp1
                          log := room.log ++ [me.name ++ " used King (seen swap confirmed)."] }
            else { room with log := room.log ++ [me.name ++ " cancelled King swap."] }
          (advanceTurn { r1 with discardPile := r1.discardPile ++ [ad.card]
                                 activeDraw := none
                                 pending := none }, none)

/-- Source `requireCenterPower(room, socketId)`. -/
def requireCenterPower (room : Room) (sid : String) : Except String Card :=
  if room.phase ≠ "CENTER_POWER" then .error "Not in center power phase"
  else
    match room.centerPower with
    | none => .error "No center power"
    | some cp =>
      if cp.ownerSocketId ≠ sid then .error "Not your center power" else .ok cp.card

/-- The `centerPower:peekOwn` event. -/
def centerPeekOwn (room : Room) (sid : String) (handIndex : Int) : Room × Option String :=
  if currentTurnSocket room ≠ some sid then (room, some "Not your turn")
  else
    match requireCenterPower room sid with
    | .error e => (room, some e)
    | .ok c =>
      if ¬ (c.r = "7" ∨ c.r = "8") then (room, some "Not 7/8")
      else
        let p := room.players.getD room.turnIndex default
        if handIndex < 0 ∨ handIndex ≥ (p.hand.length : Int) then (room, some "Bad index")
        else
          (advanceTurn { room with
              centerPower := none
              log := room.log ++ [p.name ++ " used CENTER 7/8 (peek own)."] }, none)

/-- The `centerPower:peekOpp` event. -/
def centerPeekOpp (room : Room) (sid : String) (oppIndex : Int) : Room × Option String :=
  if currentTurnSocket room ≠ some sid then (room, some "Not your turn")
  else
    match requireCenterPower room sid with
    | .error e => (room, some e)
    | .ok c =>
      if ¬ (c.r = "9" ∨ c.r = "10") then (room, some "Not 9/10")
      else
        let opp := room.players.getD ((room.turnIndex + 1) % 2) default
        if oppIndex < 0 ∨ oppIndex ≥ (opp.hand.length : Int) then (room, some "Bad index")
        else
          (advanceTurn { room with
              centerPower := none
              log := room.log ++
                [playerNameAt room room.turnIndex ++ " used CENTER 9/10 (peek opp)."] }, none)

/-- The `centerPower:jackSkip` event. -/
def centerJackSkip (room : Room) (sid : String) : Room × Option String :=
  if currentTurnSocket room ≠ some sid then (room, some "Not your turn")
  else
    match requireCenterPower room sid with
    | .error e => (room, some e)
    | .ok c =>
      if c.r ≠ "J" then (room, some "Not Jack")
      else
        let opp := room.players.getD ((room.turnIndex + 1) % 2) default
        (advanceTurn { room with
            skipNextFor := some opp.socketId
            centerPower := none
            log := room.log ++
              [playerNameAt room room.turnIndex ++ " used CENTER Jack (skip)."] }, none)

/-- The `centerPower:queenUnseenSwap` event. -/
def centerQueenUnseenSwap (room : Room) (sid : String) (myIndex oppIndex : Int) :
    Room × Option String :=
  if currentTurnSocket room ≠ some sid then (room, some "Not your turn")
  else
    match requireCenterPower room sid with
    | .error e => (room, some e)
    | .ok c =>
      if c.r ≠ "Q" then (room, some "Not Queen")
      else
        let meIdx := room.turnIndex
        let oppIdx := (meIdx + 1) % 2
        let me := room.players.getD meIdx default
        let opp := room.players.getD oppIdx default
        if myIndex < 0 ∨ myIndex ≥ (me.hand.length : Int) then (room, some "Bad my index")
        else if oppIndex < 0 ∨ oppIndex ≥ (opp.hand.length : Int) then
          (room, some "Bad opp index")
        else
          let me1 := { me with
            hand := me.hand.set myIndex.toNat (opp.hand.getD oppIndex.toNat default) }
          let opp1 := { opp with
            hand := opp.hand.set oppIndex.toNat (me.hand.getD myIndex.toNat default) }
          (advanceTurn { room with
              players := (room.players.set meIdx me1).set oppIdx opp1
              centerPower := none
              log := room.log ++ [me.name ++ " used CENTER Queen (unseen swap)."] }, none)

/-- The `disconnect` handler for a room seating the leaving socket:
`none` means the room is deleted from the registry. -/
def disconnectRoom (room : Room) (sid : String) : Option Room :=
  match jsFindIndex (fun p => p.socketId == sid) room.players with
  | none => some room
  | some idx =>
    let name_ := (room.players.getD idx default).name
    let r1 := { room with players := room.players.eraseIdx idx
                          log := room.log ++ [name_ ++ " disconnected."] }
    if r1.players.length = 0 then none
    else
      some { r1 with started := false
                     phase := "LOBBY"
                     drawPile := []
                     discardPile := []
                     activeDraw := none
                     caboCalledBy := none
                     lastTurnFor := none
                     skipNextFor := none
                     pending := none
                     ended := none
                     log := r1.log ++ ["Back to lobby."] }

/-! ## A concrete play trace (used for witnesses and counterexamples)

The identity function is a legitimate shuffle outcome, so this trace is one
possible run of the server: create, join, start, four peeks, one draw. -/

def trace0 : Room := createdRoom "R1" "S1" "Alice"

def trace1 : Room := (roomJoin trace0 "S2" "Bob").1

def trace2 : Room := (gameStartHandler trace1 "S1" id).1

def trace3 : Room := (gamePeek trace2 "S1" 0).1

def trace4 : Room := (gamePeek trace3 "S1" 0).1

def trace5 : Room := (gamePeek trace4 "S2" 0).1

def trace6 : Room := (gamePeek trace5 "S2" 0).1

def trace7 : Room := (turnTake trace6 "S1" none id).1

/-! ## C2: redaction of hands in the broadcast state -/

/-- C2.  For every room and viewer: while the phase is not ENDED, every
slot of every other player's hand in `publicState room viewer` is null; when
the phase is ENDED, every player's hand is revealed slot by slot with its
base and score values. -/
theorem C2_publicState_redaction (room : Room) (viewer : String) :
    (room.phase ≠ "ENDED" →
      ∀ pp ∈ (publicState room viewer).players, pp.socketId ≠ viewer →
        ∀ x ∈ pp.hand, x = none)
    ∧ (room.phase = "ENDED" →
      ∀ i, ((publicState room viewer).players.get? i).map PubPlayer.hand =
        ((room.players.get? i).map
          (fun p => p.hand.map (fun c => some (revealCard c))))) := by
  constructor
  · intro hph pp hpp _ x hx
    simp only [publicState, List.mem_map] at hpp
    obtain ⟨p, -, rfl⟩ := hpp
    simp only [pubPlayerOf, if_neg hph, List.mem_map] at hx
    obtain ⟨c, -, rfl⟩ := hx
    rfl
  · intro hph i
    simp only [publicState, List.get?_map, Option.map_map]
    cases room.players.get? i with
    | none => rfl
    | some p => simp [pubPlayerOf, if_pos hph, Function.comp]

/-- Witness for C2 on the concrete trace: slot 0 of Bob's redacted hand, as
seen by Alice during the PEEK phase, is null. -/
theorem C2_publicState_redaction_witness :
    ((publicState trace2 "S1").players.getD 1 default).hand.getD 0 (some default) = none := by
  refine (C2_publicState_redaction trace2 "S1").1 (by decide)
    ((publicState trace2 "S1").players.getD 1 default) (by decide) (by decide)
    (((publicState trace2 "S1").players.getD 1 default).hand.getD 0 (some default)) ?_
  decide

/-! ## C5: scoring and winner selection -/

/-- C5.  With two seated players, `scores` gives each the sum of
`scoreValue` over their hand — where `scoreValue` is `baseValue` except
that the King of Hearts and King of Diamonds score -1 — sorts the rows
ascending, and the winner is the lowest total with ties going to the
first-listed player. -/
theorem C5_scores_correct (p0 p1 : Player) (room : Room)
    (hp : room.players = [p0, p1]) :
    (scoreValue { r := "K", s := "H" } = -1 ∧ scoreValue { r := "K", s := "D" } = -1 ∧
      (∀ c : Card, ¬ (c.r = "K" ∧ (c.s = "H" ∨ c.s = "D")) → scoreValue c = baseValue c))
    ∧ (scores room).scores =
        (if handScoreSum p1.hand < handScoreSum p0.hand
         then [{ name := p1.name, score := handScoreSum p1.hand },
               { name := p0.name, score := handScoreSum p0.hand }]
         else [{ name := p0.name, score := handScoreSum p0.hand },
               { name := p1.name, score := handScoreSum p1.hand }])
    ∧ (scores room).winnerName =
        (if handScoreSum p1.hand < handScoreSum p0.hand then p1.name else p0.name) := by
  refine ⟨⟨by decide, by decide, ?_⟩, ?_, ?_⟩
  · intro c hc
    simp only [scoreValue]
    rw [if_neg hc]
  all_goals
    simp only [scores, scoreEntries, hp, List.map]
    by_cases h : handScoreSum p1.hand < handScoreSum p0.hand
    · rw [if_pos h]
      have h' : ¬ (handScoreSum p0.hand ≤ handScoreSum p1.hand) := by omega
      simp [List.insertionSort, List.orderedInsert, h']
    · rw [if_neg h]
      have h' : handScoreSum p0.hand ≤ handScoreSum p1.hand := by omega
      simp [List.insertionSort, List.orderedInsert, h']

/-- Witness for C5 on the concrete trace: Bob holds the lower total and is
named winner. -/
theorem C5_scores_correct_witness : (scores trace2).winnerName = "Bob" := by
  have h := (C5_scores_correct (trace2.players.getD 0 default)
    (trace2.players.getD 1 default) trace2 (by decide)).2.2
  rw [h]
  decide

/-! ## C9: the broadcast state is independent of hand contents -/

/-- Equality of players up to the card values in their hands. -/
def SamePlayerExceptHand (p q : Player) : Prop :=
  q.socketId = p.socketId ∧ q.name = p.name ∧ q.peeksLeft = p.peeksLeft ∧
    q.hand.length = p.hand.length

/-- Two rooms identical except for the card values stored in players'
hands. -/
def HandsOnlyDiffer (r1 r2 : Room) : Prop :=
  r2.id = r1.id ∧ r2.started = r1.started ∧ r2.turnIndex = r1.turnIndex ∧
  r2.drawPile = r1.drawPile ∧ r2.discardPile = r1.discardPile ∧ r2.phase = r1.phase ∧
  r2.activeDraw = r1.activeDraw ∧ r2.caboCalledBy = r1.caboCalledBy ∧
  r2.lastTurnFor = r1.lastTurnFor ∧ r2.skipNextFor = r1.skipNextFor ∧
  r2.pending = r1.pending ∧ r2.log = r1.log ∧ r2.ended = r1.ended ∧
  r2.valentineUnlocked = r1.valentineUnlocked ∧ r2.valState = r1.valState ∧
  r2.centerPower = r1.centerPower ∧
  List.Forall₂ SamePlayerExceptHand r1.players r2.players

theorem get?_map_socketId_eq {l1 l2 : List Player}
    (h : List.Forall₂ SamePlayerExceptHand l1 l2) (n : Nat) :
    (l2.get? n).map Player.socketId = (l1.get? n).map Player.socketId := by
  induction h generalizing n with
  | nil => rfl
  | cons hpq _ ih =>
    cases n with
    | zero => simpa using hpq.1
    | succ n => simpa using ih n

theorem pubPlayerOf_eq_of_sameShape {phase v : String} (hph : phase ≠ "ENDED")
    {p q : Player} (hpq : SamePlayerExceptHand p q) :
    pubPlayerOf phase v p = pubPlayerOf phase v q := by
  obtain ⟨hsid, hnm, hpk, hln⟩ := hpq
  simp [pubPlayerOf, if_neg hph, hsid, hnm, hpk, hln, List.map_const']

theorem map_pubPlayerOf_eq {phase v : String} (hph : phase ≠ "ENDED")
    {l1 l2 : List Player} (h : List.Forall₂ SamePlayerExceptHand l1 l2) :
    l1.map (pubPlayerOf phase v) = l2.map (pubPlayerOf phase v) := by
  induction h with
  | nil => rfl
  | cons hpq _ ih =>
    simp only [List.map_cons, ih, pubPlayerOf_eq_of_sameShape hph hpq]

/-- C9.  While the phase is not ENDED, the broadcast state is a
function of everything in the room except the identities of the cards in
players' hands: two rooms that differ only in hand contents produce the
same `publicState` for every viewer. -/
theorem C9_publicState_noninterference (r1 r2 : Room)
    (h : HandsOnlyDiffer r1 r2) (hph : r1.phase ≠ "ENDED") (v : String) :
    publicState r1 v = publicState r2 v := by
  obtain ⟨hid, hst, hti, hdp, hdc, hphase, had, hcb, hlt, hsn, hpd, hlg, hed,
    hvu, hvs, hcp, hpl⟩ := h
  have hcts : currentTurnSocket r2 = currentTurnSocket r1 := by
    unfold currentTurnSocket
    rw [hti]
    exact get?_map_socketId_eq hpl r1.turnIndex
  simp only [publicState, hid, hst, hti, hdp, hdc, hphase, hcb, hlt, hlg, hed,
    hvu, hvs, hcts]
  rw [map_pubPlayerOf_eq hph hpl]

/-- Two concrete rooms differing only in Bob's hidden cards. -/
def c9roomA : Room :=
  { id := "R9"
    players := [{ socketId := "S1", name := "Alice", peeksLeft := 0,
                  hand := [{ r := "A", s := "S" }, { r := "2", s := "S" }] },
                { socketId := "S2", name := "Bob", peeksLeft := 0,
                  hand := [{ r := "3", s := "S" }, { r := "4", s := "S" }] }]
    started := true
    turnIndex := 0
    drawPile := [{ r := "5", s := "S" }]
    discardPile := [{ r := "6", s := "S" }]
    phase := "TURN_DRAW"
    activeDraw := none
    caboCalledBy := none
    lastTurnFor := none
    skipNextFor := none
    pending := none
    log := ["x"]
    ended := none
    valentineUnlocked := false
    valState := { noClicks := 0, accepted := false }
    centerPower := none }

def c9roomB : Room :=
  { c9roomA with
    players := [{ socketId := "S1", name := "Alice", peeksLeft := 0,
                  hand := [{ r := "K", s := "H" }, { r := "K", s := "D" }] },
                { socketId := "S2", name := "Bob", peeksLeft := 0,
                  hand := [{ r := "Q", s := "C" }, { r := "J", s := "C" }] }] }

/-- Witness for C9: the two concrete rooms broadcast identical states. -/
theorem C9_publicState_noninterference_witness :
    publicState c9roomA "S1" = publicState c9roomB "S1" :=
  C9_publicState_noninterference c9roomA c9roomB
    ⟨rfl, rfl, rfl, rfl, rfl, rfl, rfl, rfl, rfl, rfl, rfl, rfl, rfl, rfl, rfl, rfl,
      .cons ⟨rfl, rfl, rfl, rfl⟩ (.cons ⟨rfl, rfl, rfl, rfl⟩ .nil)⟩
    (by decide) "S1"

/-! ## C10: peeking is not turn-scoped and keeps no per-slot record -/

theorem jsFindIndex_lt_length {pred : Player → Bool} {l : List Player} {i : Nat}
    (h : jsFindIndex pred l = some i) : i < l.length := by
  induction l generalizing i with
  | nil => simp [jsFindIndex] at h
  | cons a as ih =>
    rw [jsFindIndex] at h
    by_cases ha : pred a
    · simp only [if_pos ha, Option.some.injEq] at h
      simp only [List.length_cons]
      omega
    · simp only [if_neg ha, Option.map_eq_some'] at h
      obtain ⟨j, hj, rfl⟩ := h
      have := ih hj
      simp only [List.length_cons]
      omega

theorem jsFindIndex_pred {pred : Player → Bool} {l : List Player} {i : Nat} {d : Player}
    (h : jsFindIndex pred l = some i) : pred (l.getD i d) = true := by
  induction l generalizing i with
  | nil => simp [jsFindIndex] at h
  | cons a as ih =>
    rw [jsFindIndex] at h
    by_cases ha : pred a
    · simp only [if_pos ha, Option.some.injEq] at h
      subst h
      simpa using ha
    · simp only [if_neg ha, Option.map_eq_some'] at h
      obtain ⟨j, hj, rfl⟩ := h
      simpa using ih hj

theorem jsFindIndex_set_preserved {pred : Player → Bool} {l : List Player} {i : Nat}
    {x : Player} (h : jsFindIndex pred l = some i) (hx : pred x = true) :
    jsFindIndex pred (l.set i x) = some i := by
  induction l generalizing i with
  | nil => simp [jsFindIndex] at h
  | cons a as ih =>
    rw [jsFindIndex] at h
    by_cases ha : pred a
    · simp only [if_pos ha, Option.some.injEq] at h
      subst h
      simp [List.set, jsFindIndex, hx]
    · simp only [if_neg ha, Option.map_eq_some'] at h
      obtain ⟨j, hj, rfl⟩ := h
      simp [List.set, jsFindIndex, ha, ih hj]

theorem getD_set_self {l : List Player} {i : Nat} {x d : Player} (h : i < l.length) :
    (l.set i x).getD i d = x := by
  simp [List.getD, List.getElem?_set_eq_of_lt x h]

/-- Shape of a successful `game:peek`: the peeking player's counter drops
by one, no record of the peeked slot is kept, and the phase is unchanged
unless every counter has reached zero. -/
theorem gamePeek_success (room : Room) (sid : String) (i : Int) (pIdx : Nat)
    (hf : jsFindIndex (fun p => p.socketId == sid) room.players = some pIdx)
    (hph : room.phase = "PEEK")
    (hpk : 0 < (room.players.getD pIdx default).peeksLeft)
    (hi0 : 0 ≤ i) (hilt : i < ((room.players.getD pIdx default).hand.length : Int)) :
    ∃ r1, gamePeek room sid i = (r1, none)
      ∧ r1.players = room.players.set pIdx
          { room.players.getD pIdx default with
            peeksLeft := (room.players.getD pIdx default).peeksLeft - 1 }
      ∧ (¬ ((room.players.set pIdx
              { room.players.getD pIdx default with
                peeksLeft := (room.players.getD pIdx default).peeksLeft - 1 }).all
              (fun x => x.peeksLeft == 0)) →
          r1.phase = room.phase) := by
  rw [gamePeek, if_neg (by simp [hph]), hf]
  dsimp only
  rw [if_neg (by omega), if_neg (by push_neg; constructor <;> omega)]
  split
  · exact ⟨_, rfl, rfl, fun h => by simp_all⟩
  · exact ⟨_, rfl, rfl, fun _ => by simp [hph]⟩

/-- C10.  The event `game:peek` is not turn-scoped and keeps no record of peeked
slots: the outcome never depends on `turnIndex`, and a player with two
peeks left may name the same hand index twice, each success decrementing
`peeksLeft` by exactly one (2, then 1, then 0). -/
theorem C10_gamePeek_unscoped (room : Room) (sid : String) (i : Int) (pIdx : Nat)
    (hf : jsFindIndex (fun p => p.socketId == sid) room.players = some pIdx)
    (hph : room.phase = "PEEK")
    (hpk : (room.players.getD pIdx default).peeksLeft = 2)
    (hi0 : 0 ≤ i) (hilt : i < ((room.players.getD pIdx default).hand.length : Int)) :
    (∀ (r : Room) (s : String) (j : Int) (t : Nat),
        (gamePeek { r with turnIndex := t } s j).2 = (gamePeek r s j).2)
    ∧ (∃ r1, gamePeek room sid i = (r1, none)
        ∧ r1.phase = "PEEK"
        ∧ (r1.players.getD pIdx default).peeksLeft = 1
        ∧ ∃ r2, gamePeek r1 sid i = (r2, none)
            ∧ (r2.players.getD pIdx default).peeksLeft = 0) := by
  have hlen := jsFindIndex_lt_length hf
  constructor
  · intro r s j t
    rw [gamePeek, gamePeek]
    dsimp only
    by_cases h1 : r.phase = "PEEK"
    · rw [if_neg (by simp [h1]), if_neg (by simp [h1])]
      cases h2 : jsFindIndex (fun p => p.socketId == s) r.players with
      | none => rfl
      | some k =>
        by_cases h3 : (r.players[k]?.getD default).peeksLeft ≤ 0
        · simp [h3]
        · by_cases h4 : j < 0 ∨ ((r.players[k]?.getD default).hand.length : Int) ≤ j
          · simp [h3, h4]
          · simp [h3, h4]
            split <;> rfl
    · rw [if_pos (by simp [h1]), if_pos (by simp [h1])]
  · obtain ⟨r1, e1, hpl1, hphase1⟩ :=
      gamePeek_success room sid i pIdx hf hph (by omega) hi0 hilt
    have hnotall : ¬ ((room.players.set pIdx
        { room.players.getD pIdx default with
          peeksLeft := (room.players.getD pIdx default).peeksLeft - 1 }).all
        (fun x => x.peeksLeft == 0)) := by
      intro hall
      rw [List.all_eq_true] at hall
      have hmem : ({ room.players.getD pIdx default with
          peeksLeft := (room.players.getD pIdx default).peeksLeft - 1 } : Player) ∈
          room.players.set pIdx
            { room.players.getD pIdx default with
              peeksLeft := (room.players.getD pIdx default).peeksLeft - 1 } := by
        have hl : pIdx < (room.players.set pIdx
            { room.players.getD pIdx default with
              peeksLeft := (room.players.getD pIdx default).peeksLeft - 1 }).length := by
          simpa using hlen
        have hg := List.getElem_set_self (l := room.players)
          (i := pIdx)
          (a := { room.players.getD pIdx default with
                  peeksLeft := (room.players.getD pIdx default).peeksLeft - 1 })
          (h := hl)
        have hmm := List.getElem_mem hl
        rwa [hg] at hmm
      have := hall _ hmem
      simp only [beq_iff_eq] at this
      omega
    have hph1 : r1.phase = "PEEK" := (hphase1 hnotall).trans hph
    have hr1get : r1.players.getD pIdx default =
        { room.players.getD pIdx default with
          peeksLeft := (room.players.getD pIdx default).peeksLeft - 1 } := by
      rw [hpl1]
      exact getD_set_self hlen
    have hpk1 : (r1.players.getD pIdx default).peeksLeft = 1 := by
      rw [hr1get]
      show (room.players.getD pIdx default).peeksLeft - 1 = 1
      omega
    have hf1 : jsFindIndex (fun q => q.socketId == sid) r1.players = some pIdx := by
      rw [hpl1]
      refine jsFindIndex_set_preserved hf ?_
      simpa using jsFindIndex_pred (d := default) hf
    have hhand1 : (r1.players.getD pIdx default).hand =
        (room.players.getD pIdx default).hand := by
      rw [hr1get]
    obtain ⟨r2, e2, hpl2, -⟩ :=
      gamePeek_success r1 sid i pIdx hf1 hph1 (by omega) hi0 (by rw [hhand1]; exact hilt)
    refine ⟨r1, e1, hph1, hpk1, r2, e2, ?_⟩
    have hlen1 : pIdx < r1.players.length := by
      rw [hpl1]
      simpa using hlen
    rw [hpl2, getD_set_self hlen1]
    show (r1.players.getD pIdx default).peeksLeft - 1 = 0
    omega

/-- Witness for C10: on the concrete trace, Alice double-peeks slot 0. -/
theorem C10_gamePeek_unscoped_witness :
    ∃ r1, gamePeek trace2 "S1" 0 = (r1, none)
      ∧ r1.phase = "PEEK"
      ∧ (r1.players.getD 0 default).peeksLeft = 1
      ∧ ∃ r2, gamePeek r1 "S1" 0 = (r2, none)
          ∧ (r2.players.getD 0 default).peeksLeft = 0 :=
  (C10_gamePeek_unscoped trace2 "S1" 0 0 (by decide) (by decide) (by decide)
    (by decide) (by decide)).2

/-! ## C7: draw failures and the reshuffle-refill -/

/-- A possible outcome of the cryptographic Fisher-Yates shuffle: some
permutation of its input. -/
def ShuffleOK (sh : List Card → List Card) : Prop :=
  ∀ l, (sh l).Perm l

theorem shuffleOK_id : ShuffleOK id := fun l => List.Perm.refl l

/-- A started room whose draw pile is exhausted while one card sits on the
center pile. -/
def c7room : Room :=
  { c9roomA with drawPile := [], discardPile := [{ r := "6", s := "S" }] }

/-- C7.  The event `turn:take` fails with the room unchanged whenever a drawn
card is already held, and whenever both piles are empty; when the draw
pile is empty but the discard pile is not, a legal draw reshuffles the
whole discard pile into a fresh draw pile and succeeds, moving exactly one
card into `activeDraw`. -/
theorem C7_turnTake_refill (room : Room) (sid : String) (source : Option String)
    (sh : List Card → List Card) :
    (room.activeDraw.isSome →
      (turnTake room sid source sh).1 = room ∧ (turnTake room sid source sh).2.isSome)
    ∧ (room.drawPile = [] → room.discardPile = [] →
      (turnTake room sid source sh).1 = room ∧ (turnTake room sid source sh).2.isSome)
    ∧ ((room.phase = "TURN_DRAW" ∨ room.phase = "LAST_TURN") →
       currentTurnSocket room = some sid →
       room.activeDraw = none →
       room.pending = none →
       (source = none ∨ source = some "draw") →
       room.drawPile = [] →
       room.discardPile ≠ [] →
       ShuffleOK sh →
      (turnTake room sid source sh).2 = none
        ∧ (turnTake room sid source sh).1.drawPile = (sh room.discardPile).dropLast
        ∧ (turnTake room sid source sh).1.discardPile = []
        ∧ (turnTake room sid source sh).1.activeDraw
            = (sh room.discardPile).getLast?.map (fun c => { card := c })
        ∧ (turnTake room sid source sh).1.phase = "TURN_DECIDE"
        ∧ (turnTake room sid source sh).1.drawPile.length + 1 = room.discardPile.length) := by
  refine ⟨?_, ?_, ?_⟩
  · intro h
    rw [turnTake]
    split
    · exact ⟨rfl, rfl⟩
    · split
      · exact ⟨rfl, rfl⟩
      · simp [h]
  · intro hdraw hdisc
    have hrf : refillDrawPileIfNeeded room sh = (room, some "No cards left to draw") := by
      rw [refillDrawPileIfNeeded, if_neg (by simp [hdraw]), if_pos (by simp [hdisc])]
    rw [turnTake]
    split
    · exact ⟨rfl, rfl⟩
    · split
      · exact ⟨rfl, rfl⟩
      · split
        · exact ⟨rfl, rfl⟩
        · split
          · exact ⟨rfl, rfl⟩
          · split
            · exact ⟨rfl, rfl⟩
            · simp [hrf]
  · intro hph hturn hact hpend hsrc hdraw hdisc hsh
    have hshne : sh room.discardPile ≠ [] := by
      intro he
      have hperm := hsh room.discardPile
      rw [he] at hperm
      exact hdisc hperm.nil_eq.symm
    have hrf : refillDrawPileIfNeeded room sh =
        ({ room with drawPile := sh room.discardPile
                     discardPile := []
                     log := room.log ++ ["Draw pile refilled from center pile (reshuffled)."] },
         none) := by
      rw [refillDrawPileIfNeeded, if_neg (by simp [hdraw]), if_neg (by simp [hdisc])]
    have hsrc' : ¬ (source.getD "" ≠ "" ∧ source ≠ some "draw") := by
      rcases hsrc with rfl | rfl <;> simp
    rw [turnTake, if_neg (by simp [hph]), if_neg (by simp [hturn]),
      if_neg (by simp [hact]), if_neg (by simp [hpend]), if_neg hsrc']
    simp only [hrf]
    cases hlast : (sh room.discardPile).getLast? with
    | none => exact absurd (List.getLast?_eq_none_iff.mp hlast) hshne
    | some c =>
      refine ⟨rfl, rfl, rfl, rfl, rfl, ?_⟩
      have hlen : (sh room.discardPile).length = room.discardPile.length :=
        (hsh room.discardPile).length_eq
      have : (sh room.discardPile).length ≠ 0 := by
        simpa using fun h => hshne (List.length_eq_zero.mp h)
      simp only [List.length_dropLast]
      omega

/-- Witness for C7: in a one-card-discard room the reshuffle-refill draw
succeeds with the identity shuffle. -/
theorem C7_turnTake_refill_witness :
    (turnTake c7room "S1" none id).2 = none
      ∧ (turnTake c7room "S1" none id).1.drawPile.length + 1 = c7room.discardPile.length :=
  ⟨((C7_turnTake_refill c7room "S1" none id).2.2 (Or.inl rfl) rfl rfl rfl (Or.inl rfl)
      rfl (by decide) shuffleOK_id).1,
   ((C7_turnTake_refill c7room "S1" none id).2.2 (Or.inl rfl) rfl rfl rfl (Or.inl rfl)
      rfl (by decide) shuffleOK_id).2.2.2.2.2⟩

/-! ## C3: calling Cabo -/

/-- C3.  With two distinct seated players, `turn:cabo` succeeds exactly
when the phase is TURN_DRAW, the caller holds the turn, and the caller's
hand total is strictly below 10; on success it records the caller, grants
the opponent the last turn, jumps `turnIndex` to the opponent and moves to
LAST_TURN; on any violation the room is unchanged. -/
theorem C3_turnCabo_characterization (room : Room) (sid : String) (p0 p1 : Player)
    (hp : room.players = [p0, p1]) (hne : p0.socketId ≠ p1.socketId) :
    ((turnCabo room sid).2 = none ↔
      (room.phase = "TURN_DRAW" ∧ currentTurnSocket room = some sid ∧
        (∃ s, computeHandSum room sid = some s ∧ s < 10)))
    ∧ ((turnCabo room sid).2 = none →
        (turnCabo room sid).1.caboCalledBy = some sid
        ∧ (turnCabo room sid).1.lastTurnFor =
            some (if p0.socketId = sid then p1.socketId else p0.socketId)
        ∧ (turnCabo room sid).1.turnIndex = (if p0.socketId = sid then 1 else 0)
        ∧ (turnCabo room sid).1.phase = "LAST_TURN")
    ∧ ((turnCabo room sid).2 ≠ none → (turnCabo room sid).1 = room) := by
  by_cases hph : room.phase = "TURN_DRAW"
  case neg =>
    have ht : turnCabo room sid = (room, some "Call Cabo at start of your turn") := by
      rw [turnCabo, if_pos hph]
    refine ⟨?_, ?_, ?_⟩ <;> simp [ht, hph]
  case pos =>
  by_cases hturn : currentTurnSocket room = some sid
  case neg =>
    have ht : turnCabo room sid = (room, some "Not your turn") := by
      rw [turnCabo, if_neg (by simp [hph]), if_pos hturn]
    refine ⟨?_, ?_, ?_⟩ <;> simp [ht, hph, hturn]
  case pos =>
  have hsid : p0.socketId = sid ∨ p1.socketId = sid := by
    have h' := hturn
    unfold currentTurnSocket at h'
    rw [hp] at h'
    cases hti : room.turnIndex with
    | zero =>
      rw [hti] at h'
      exact Or.inl (by simpa using h')
    | succ n =>
      cases n with
      | zero =>
        rw [hti] at h'
        exact Or.inr (by simpa using h')
      | succ m =>
        rw [hti] at h'
        simp at h'
  rcases hsid with hcall | hcall
  · -- the caller is p0
    have hp1ne : p1.socketId ≠ sid := fun h => hne (hcall.trans h.symm)
    have hchs : computeHandSum room sid = some (handScoreSum p0.hand) := by
      rw [computeHandSum, hp]
      simp [List.find?, hcall]
    have hfind : room.players.find? (fun p => !(p.socketId == sid)) = some p1 := by
      have hb : (p1.socketId == sid) = false := by simp [hp1ne]
      rw [hp]
      simp [List.find?, hcall, hb]
    have hidx : jsFindIndex (fun p => p.socketId == p1.socketId) room.players = some 1 := by
      rw [hp]
      have : p0.socketId ≠ p1.socketId := hne
      simp [jsFindIndex, this]
    by_cases hsum : handScoreSum p0.hand ≥ 10
    · have ht : turnCabo room sid =
          (room, some "Cabo not allowed (total must be less than 10).") := by
        rw [turnCabo, if_neg (by simp [hph]), if_neg (by simp [hturn])]
        simp only [hchs]
        rw [if_pos hsum]
      refine ⟨?_, ?_, ?_⟩ <;> simp [ht, hph, hturn, hchs] <;> omega
    · rw [turnCabo, if_neg (by simp [hph]), if_neg (by simp [hturn])]
      simp only [hchs]
      rw [if_neg hsum]
      simp only [hfind, hidx]
      refine ⟨?_, ?_, ?_⟩
      · exact iff_of_true trivial ⟨hph, hturn, ⟨handScoreSum p0.hand, rfl, by omega⟩⟩
      · intro _
        exact ⟨trivial, by simp [hcall], by simp [hcall], trivial⟩
      · intro h
        exact absurd rfl h
  · -- the caller is p1
    have hp0ne : p0.socketId ≠ sid := fun h => hne (h.trans hcall.symm)
    have hchs : computeHandSum room sid = some (handScoreSum p1.hand) := by
      have hb : (p0.socketId == sid) = false := by simp [hp0ne]
      rw [computeHandSum, hp]
      simp [List.find?, hb, hcall]
    have hfind : room.players.find? (fun p => !(p.socketId == sid)) = some p0 := by
      have hb : (p0.socketId == sid) = false := by simp [hp0ne]
      rw [hp]
      simp [List.find?, hb]
    have hidx : jsFindIndex (fun p => p.socketId == p0.socketId) room.players = some 0 := by
      rw [hp]
      simp [jsFindIndex]
    by_cases hsum : handScoreSum p1.hand ≥ 10
    · have ht : turnCabo room sid =
          (room, some "Cabo not allowed (total must be less than 10).") := by
        rw [turnCabo, if_neg (by simp [hph]), if_neg (by simp [hturn])]
        simp only [hchs]
        rw [if_pos hsum]
      refine ⟨?_, ?_, ?_⟩ <;> simp [ht, hph, hturn, hchs] <;> omega
    · rw [turnCabo, if_neg (by simp [hph]), if_neg (by simp [hturn])]
      simp only [hchs]
      rw [if_neg hsum]
      simp only [hfind, hidx]
      refine ⟨?_, ?_, ?_⟩
      · exact iff_of_true trivial ⟨hph, hturn, ⟨handScoreSum p1.hand, rfl, by omega⟩⟩
      · intro _
        exact ⟨trivial, by simp [hp0ne], by simp [hp0ne], trivial⟩
      · intro h
        exact absurd rfl h

/-- Witness for C3: Alice (hand total 3) calls Cabo in TURN_DRAW. -/
theorem C3_turnCabo_characterization_witness :
    (turnCabo c9roomA "S1").2 = none ∧ (turnCabo c9roomA "S1").1.phase = "LAST_TURN" := by
  have h := C3_turnCabo_characterization c9roomA "S1"
    (c9roomA.players.getD 0 default) (c9roomA.players.getD 1 default)
    (by decide) (by decide)
  have hok : (turnCabo c9roomA "S1").2 = none :=
    h.1.mpr ⟨by decide, by decide, ⟨3, by decide, by decide⟩⟩
  exact ⟨hok, ((h.2.1) hok).2.2.2⟩

/-! ## C4: the advanceTurn algorithm -/

theorem advanceTurn_players (room : Room) : (advanceTurn room).players = room.players := by
  rw [advanceTurn]
  split
  · rfl
  · dsimp only
    split <;> rfl

theorem advanceTurn_discardPile (room : Room) :
    (advanceTurn room).discardPile = room.discardPile := by
  rw [advanceTurn]
  split
  · rfl
  · dsimp only
    split <;> rfl

theorem advanceTurn_activeDraw (room : Room) (h : room.activeDraw = none) :
    (advanceTurn room).activeDraw = none := by
  rw [advanceTurn]
  split
  · exact h
  · dsimp only

theorem advanceTurn_pending (room : Room) (h : room.pending = none) :
    (advanceTurn room).pending = none := by
  rw [advanceTurn]
  split
  · exact h
  · dsimp only

/-- C4.  The procedure `advanceTurn` ends the round (scores stored, phase ENDED,
`turnIndex` untouched) exactly in the last-turn case; otherwise it rotates
by one, applies a pending skip exactly once (clearing `skipNextFor`, one
extra rotation, never more), resets the phase to TURN_DRAW and clears
`activeDraw` and `pending`. -/
theorem C4_advanceTurn_algorithm (room : Room) :
    ((room.lastTurnFor.isSome ∧ currentTurnSocket room = room.lastTurnFor) →
      (advanceTurn room).phase = "ENDED"
      ∧ (advanceTurn room).ended = some (scores room)
      ∧ (advanceTurn room).turnIndex = room.turnIndex)
    ∧ (¬ (room.lastTurnFor.isSome ∧ currentTurnSocket room = room.lastTurnFor) →
      ((advanceTurn room).turnIndex =
        (if room.skipNextFor.isSome ∧ room.skipNextFor =
            currentTurnSocket { room with turnIndex := (room.turnIndex + 1) % room.players.length }
         then ((room.turnIndex + 1) % room.players.length + 1) % room.players.length
         else (room.turnIndex + 1) % room.players.length)
      ∧ (advanceTurn room).skipNextFor =
        (if room.skipNextFor.isSome ∧ room.skipNextFor =
            currentTurnSocket { room with turnIndex := (room.turnIndex + 1) % room.players.length }
         then none
         else room.skipNextFor)
      ∧ (advanceTurn room).phase = "TURN_DRAW"
      ∧ (advanceTurn room).activeDraw = none
      ∧ (advanceTurn room).pending = none)) := by
  constructor
  · intro h
    rw [advanceTurn, if_pos h]
    exact ⟨rfl, rfl, rfl⟩
  · intro h
    rw [advanceTurn, if_neg h]
    dsimp only
    split <;> exact ⟨rfl, rfl, rfl, rfl, rfl⟩

/-- A room in which the last-turn holder has just finished. -/
def c4room : Room := { c9roomA with lastTurnFor := some "S1" }

/-- Witness for C4: advancing past the last turn ends the round. -/
theorem C4_advanceTurn_algorithm_witness :
    (advanceTurn c4room).phase = "ENDED"
      ∧ (advanceTurn c4room).ended = some (scores c4room)
      ∧ (advanceTurn c4room).turnIndex = c4room.turnIndex :=
  (C4_advanceTurn_algorithm c4room).1 ⟨by decide, by decide⟩

/-! ## C6: cancelling the King's seen swap -/

/-- C6.  With a drawn King held and a `KING_CONFIRM` pending opened by
the acting player, `power:kingConfirm` with `confirm = false` leaves every
hand unchanged, still discards the King onto the center pile, clears
`activeDraw` and `pending`, and advances the turn — and the
`confirm = true` branch succeeds with the same discard. -/
theorem C6_kingConfirm_cancel (room : Room) (sid : String) (k : Card) (mi oi : Int)
    (hph : room.phase = "TURN_DECIDE")
    (hturn : currentTurnSocket room = some sid)
    (hact : room.activeDraw = some { card := k })
    (hk : k.r = "K")
    (hpend : room.pending = some { type := "KING_CONFIRM", playerSocketId := sid,
                                   myIndex := mi, oppIndex := oi }) :
    (powerKingConfirm room sid false).2 = none
    ∧ (powerKingConfirm room sid false).1 =
        advanceTurn { room with
          discardPile := room.discardPile ++ [k]
          activeDraw := none
          pending := none
          log := room.log ++
            [(room.players.getD room.turnIndex default).name ++ " cancelled King swap."] }
    ∧ (powerKingConfirm room sid false).1.players.map Player.hand =
        room.players.map Player.hand
    ∧ (powerKingConfirm room sid false).1.discardPile = room.discardPile ++ [k]
    ∧ (powerKingConfirm room sid false).1.activeDraw = none
    ∧ (powerKingConfirm room sid false).1.pending = none
    ∧ (powerKingConfirm room sid true).2 = none
    ∧ (powerKingConfirm room sid true).1.discardPile = room.discardPile ++ [k] := by
  have hred : ∀ confirm : Bool, powerKingConfirm room sid confirm =
      (advanceTurn {
        (if confirm then
          { room with
            players := (room.players.set room.turnIndex
                { room.players.getD room.turnIndex default with
                  hand := jsWrite (room.players.getD room.turnIndex default).hand mi
                    (jsRead ((room.players.getD ((room.turnIndex + 1) % 2) default)).hand
                      oi) }).set ((room.turnIndex + 1) % 2)
                { room.players.getD ((room.turnIndex + 1) % 2) default with
                  hand := jsWrite
                    (room.players.getD ((room.turnIndex + 1) % 2) default).hand oi
                    (jsRead (room.players.getD room.turnIndex default).hand mi) }
            log := room.log ++
              [(room.players.getD room.turnIndex default).name ++
                " used King (seen swap confirmed)."] }
        else
          { room with
            log := room.log ++
              [(room.players.getD room.turnIndex default).name ++
                " cancelled King swap."] }) with
        discardPile := (if confirm then room.discardPile else room.discardPile) ++ [k]
        activeDraw := none
        pending := none }, none) := by
    intro confirm
    rw [powerKingConfirm, if_neg (by simp [hturn]), if_neg (by simp [hph])]
    simp only [hact, hpend]
    rw [if_neg (by simp), if_neg (by simp)]
    cases confirm <;> rfl
  have hf := hred false
  have ht := hred true
  simp only [if_neg Bool.false_ne_true] at hf
  refine ⟨by rw [hf], by rw [hf], ?_, ?_, ?_, ?_, by rw [ht], ?_⟩
  · rw [hf, advanceTurn_players]
  · rw [hf, advanceTurn_discardPile]
  · rw [hf]
    exact advanceTurn_activeDraw _ rfl
  · rw [hf]
    exact advanceTurn_pending _ rfl
  · rw [ht, advanceTurn_discardPile]
    rfl

/-- A TURN_DECIDE room with a drawn King and its pending confirmation. -/
def c6room : Room :=
  { c9roomA with
    phase := "TURN_DECIDE"
    activeDraw := some { card := { r := "K", s := "S" } }
    pending := some { type := "KING_CONFIRM", playerSocketId := "S1",
                      myIndex := 0, oppIndex := 1 } }

/-- Witness for C6: Alice cancels the King swap; hands survive unchanged. -/
theorem C6_kingConfirm_cancel_witness :
    (powerKingConfirm c6room "S1" false).2 = none
      ∧ (powerKingConfirm c6room "S1" false).1.players.map Player.hand =
          c6room.players.map Player.hand := by
  have h := C6_kingConfirm_cancel c6room "S1" { r := "K", s := "S" } 0 1
    rfl (by decide) rfl rfl rfl
  exact ⟨h.1, h.2.2.1⟩

/-! ## C8: disconnect handling -/

/-- C8 (amended).  When a seated player disconnects: a room that held
only that player is deleted; a two-player room survives, reverting to
LOBBY with `started` cleared and both piles emptied, while the remaining
player keeps their seat — with their hand left untouched (the handler does
not clear hands). -/
theorem C8_disconnect_room (room : Room) (sid : String) (idx : Nat)
    (hf : jsFindIndex (fun p => p.socketId == sid) room.players = some idx) :
    (room.players.length = 1 → disconnectRoom room sid = none)
    ∧ (room.players.length = 2 →
        ∃ r', disconnectRoom room sid = some r'
          ∧ r'.players = room.players.eraseIdx idx
          ∧ r'.players.length = 1
          ∧ r'.phase = "LOBBY" ∧ r'.started = false
          ∧ r'.drawPile = [] ∧ r'.discardPile = []
          ∧ r'.activeDraw = none ∧ r'.pending = none ∧ r'.ended = none) := by
  have hlt := jsFindIndex_lt_length hf
  have herase : ∀ n, room.players.length = n + 1 →
      (room.players.eraseIdx idx).length = n := by
    intro n hn
    have := List.length_eraseIdx_add_one (l := room.players) (i := idx) hlt
    omega
  constructor
  · intro h1
    rw [disconnectRoom, hf]
    dsimp only
    rw [if_pos (herase 0 h1)]
  · intro h2
    rw [disconnectRoom, hf]
    dsimp only
    rw [if_neg (by rw [herase 1 h2]; omega)]
    exact ⟨_, rfl, rfl, herase 1 h2, rfl, rfl, rfl, rfl, rfl, rfl, rfl⟩

/-- Counterexample for C8 as stated: after Bob disconnects from a started
two-player room, the remaining player's hand is *not* cleared — Alice
still holds her two cards. -/
theorem C8_disconnect_counterexample :
    (disconnectRoom c9roomA "S2").map (fun r => (r.players.getD 0 default).hand)
      = some [{ r := "A", s := "S" }, { r := "2", s := "S" }]
    ∧ (disconnectRoom c9roomA "S2").map (fun r => (r.players.getD 0 default).hand)
      ≠ some [] := by
  constructor
  · decide
  · decide

/-- Witness for C8 (amended) on the concrete room. -/
theorem C8_disconnect_room_witness :
    ∃ r', disconnectRoom c9roomA "S2" = some r'
      ∧ r'.players = c9roomA.players.eraseIdx 1
      ∧ r'.players.length = 1
      ∧ r'.phase = "LOBBY" ∧ r'.started = false
      ∧ r'.drawPile = [] ∧ r'.discardPile = []
      ∧ r'.activeDraw = none ∧ r'.pending = none ∧ r'.ended = none :=
  (C8_disconnect_room c9roomA "S2" 1 (by decide)).2 (by decide)

/-! ## C1: card conservation across the whole action surface

Per-handler lemmas below show that every mutating handler preserves the
activeDraw-adjusted 52-card count — except `power:kingConfirm`, which
preserves it only while the pending indices are still within the hand
bounds (`inv_powerKingConfirm_inBounds`).  Because `burn:attempt` carries
no pending check, those bounds can be invalidated while the confirmation
is pending, so the count is **not** invariant over all reachable states:
the development ends with a reachable run on which the piles and hands
hold 53 entries, one of them the JavaScript `undefined`. -/

def handsTotal (room : Room) : Nat :=
  (room.players.map (fun p => p.hand.length)).sum

def activeCount (room : Room) : Nat :=
  if room.activeDraw.isSome then 1 else 0

/-- The count named by the claim: cards in the two piles plus all hands. -/
def pilesHandsTotal (room : Room) : Nat :=
  room.drawPile.length + room.discardPile.length + handsTotal room

/-- The full conservation count: piles, hands, and the held drawn card. -/
def cardTotal (room : Room) : Nat :=
  pilesHandsTotal room + activeCount room

/-- The candidate invariant: started rooms keep all 52 cards across piles,
hands and the active draw, and a held draw only ever exists in
TURN_DECIDE.  It is preserved by every handler except the stale-index
King confirm, and fails on the reachable run closing this file. -/
def Inv (room : Room) : Prop :=
  room.started = true →
    cardTotal room = 52 ∧ (room.activeDraw.isSome → room.phase = "TURN_DECIDE")

theorem currentTurn_lt {room : Room} {sid : String}
    (h : currentTurnSocket room = some sid) :
    room.turnIndex < room.players.length := by
  by_cases hlt : room.turnIndex < room.players.length
  · exact hlt
  · unfold currentTurnSocket at h
    rw [List.get?_eq_none.mpr (by omega)] at h
    simp at h

theorem sum_hands_set (l : List Player) (i : Nat) (p : Player) (h : i < l.length) :
    ((l.set i p).map (fun q => q.hand.length)).sum + (l.getD i default).hand.length
      = (l.map (fun q => q.hand.length)).sum + p.hand.length := by
  induction l generalizing i with
  | nil => simp at h
  | cons a as ih =>
    cases i with
    | zero =>
      simp only [List.set, List.map_cons, List.sum_cons, List.getD_cons_zero]
      omega
    | succ n =>
      simp only [List.set, List.map_cons, List.sum_cons, List.getD_cons_succ]
      have := ih n (by simpa using h)
      omega

theorem getD_set_ne (l : List Player) (i j : Nat) (x d : Player) (h : i ≠ j) :
    (l.set i x).getD j d = l.getD j d := by
  simp [List.getD, List.getElem?_set_ne h]

theorem activeCount_eq_zero {room : Room} (h : room.activeDraw = none) :
    activeCount room = 0 := by
  unfold activeCount
  rw [h]
  rfl

theorem activeCount_eq_one {room : Room} {c : ActiveDraw} (h : room.activeDraw = some c) :
    activeCount room = 1 := by
  unfold activeCount
  rw [h]
  rfl

theorem advanceTurn_drawPile (room : Room) :
    (advanceTurn room).drawPile = room.drawPile := by
  rw [advanceTurn]
  split
  · rfl
  · dsimp only
    split <;> rfl

theorem advanceTurn_started (room : Room) :
    (advanceTurn room).started = room.started := by
  rw [advanceTurn]
  split
  · rfl
  · dsimp only
    split <;> rfl

theorem cardTotal_advanceTurn (room : Room) (hact : room.activeDraw = none) :
    cardTotal (advanceTurn room) = cardTotal room := by
  unfold cardTotal pilesHandsTotal handsTotal activeCount
  rw [advanceTurn_players, advanceTurn_drawPile, advanceTurn_discardPile,
    advanceTurn_activeDraw room hact, hact]

theorem advanceTurn_phase (room : Room) :
    (advanceTurn room).phase = "ENDED" ∨ (advanceTurn room).phase = "TURN_DRAW" := by
  rw [advanceTurn]
  split
  · exact Or.inl rfl
  · dsimp only
    exact Or.inr rfl

theorem inv_advanceTurn {room : Room} (h : Inv room)
    (hact : room.started = true → room.activeDraw = none) :
    Inv (advanceTurn room) := by
  intro hs
  rw [advanceTurn_started] at hs
  obtain ⟨hc, -⟩ := h hs
  have ha := hact hs
  refine ⟨?_, ?_⟩
  · rw [cardTotal_advanceTurn room ha]
    exact hc
  · intro habs
    rw [advanceTurn_activeDraw room ha] at habs
    simp at habs

theorem inv_maybeEnterCenterPower {room : Room} (sid : String) (card : Card)
    (h : Inv room) (hact : room.started = true → room.activeDraw = none) :
    Inv (maybeEnterCenterPower room sid card).1 := by
  rw [maybeEnterCenterPower]
  split
  · intro hs
    obtain ⟨hc, -⟩ := h hs
    refine ⟨hc, ?_⟩
    intro habs
    rw [hact hs] at habs
    simp at habs
  · exact h

theorem inv_roomJoin {room : Room} (sid name_ : String) (h : Inv room) :
    Inv (roomJoin room sid name_).1 := by
  rw [roomJoin]
  split
  · exact h
  · intro hs
    obtain ⟨hc, h2⟩ := h hs
    refine ⟨?_, h2⟩
    unfold cardTotal pilesHandsTotal handsTotal activeCount at hc ⊢
    simp only [List.map_append, List.sum_append, List.map_cons, List.sum_cons,
      List.map_nil, List.sum_nil, List.length_nil]
    omega

theorem dealFour_fst_length (deck : List Card) :
    (dealFour deck).1.length = min 4 deck.length := by
  simp [dealFour]

theorem dealFour_snd_length (deck : List Card) :
    (dealFour deck).2.length = deck.length - 4 := by
  simp [dealFour]

theorem inv_startGame {room : Room} (sh : List Card → List Card) (hsh : ShuffleOK sh)
    (h : Inv room) : Inv (startGame room sh).1 := by
  rw [startGame]
  split
  · exact h
  case isFalse h2 =>
    have hlen2 : room.players.length = 2 := by omega
    obtain ⟨p0, p1, hp⟩ := List.length_eq_two.mp hlen2
    have hdeck : (sh makeDeck).length = 52 := by
      rw [(hsh makeDeck).length_eq]
      decide
    intro _
    refine ⟨?_, ?_⟩
    · unfold cardTotal pilesHandsTotal handsTotal
      rw [activeCount_eq_zero rfl]
      dsimp only
      rw [hp]
      simp only [dealAll, List.map_cons, List.map_nil, List.sum_cons, List.sum_nil]
      simp only [dealFour_fst_length, dealFour_snd_length, List.length_nil]
      omega
    · intro habs
      simp at habs

theorem inv_gameStartHandler {room : Room} (sid : String) (sh : List Card → List Card)
    (hsh : ShuffleOK sh) (h : Inv room) : Inv (gameStartHandler room sid sh).1 := by
  rw [gameStartHandler]
  split
  · exact h
  · exact inv_startGame sh hsh h

theorem inv_roomBypass {room : Room} (sid : String) (h : Inv room) :
    Inv (roomBypass room sid).1 := by
  rw [roomBypass]
  split
  · exact h
  · intro hs
    exact h hs

theorem inv_valNo {room : Room} (h : Inv room) : Inv (valNo room).1 := fun hs => h hs

theorem inv_valYes {room : Room} (h : Inv room) : Inv (valYes room).1 := fun hs => h hs

theorem inv_gamePeek {room : Room} (sid : String) (i : Int) (h : Inv room) :
    Inv (gamePeek room sid i).1 := by
  rw [gamePeek]
  split
  · exact h
  case isFalse hph =>
    rw [not_not] at hph
    cases hf : jsFindIndex (fun p => p.socketId == sid) room.players with
    | none => exact h
    | some pIdx =>
      dsimp only
      split
      · exact h
      · split
        · exact h
        · have hlt := jsFindIndex_lt_length hf
          have hsum := sum_hands_set room.players pIdx
            { room.players.getD pIdx default with
              peeksLeft := (room.players.getD pIdx default).peeksLeft - 1 } hlt
          split
          all_goals
            intro hs
            obtain ⟨hc, h2⟩ := h hs
            refine ⟨?_, ?_⟩
            · unfold cardTotal pilesHandsTotal handsTotal activeCount at hc ⊢
              dsimp only at hsum ⊢
              omega
            · intro habs
              have hTD := h2 habs
              rw [hph] at hTD
              exact absurd hTD (by decide)

theorem inv_turnCabo {room : Room} (sid : String) (h : Inv room) :
    Inv (turnCabo room sid).1 := by
  rw [turnCabo]
  split
  · exact h
  case isFalse hph =>
    rw [not_not] at hph
    split
    · exact h
    case isFalse hturn =>
      cases hchs : computeHandSum room sid with
      | none => exact h
      | some s =>
        dsimp only
        split
        · exact h
        · cases hfind : room.players.find? (fun p => !(p.socketId == sid)) with
          | none =>
            intro hs
            exact h hs
          | some opp =>
            dsimp only
            intro hs
            obtain ⟨hc, h2⟩ := h hs
            have hact : room.activeDraw = none := by
              by_cases ha : room.activeDraw.isSome
              · have := h2 ha
                rw [hph] at this
                simp at this
              · exact Option.not_isSome_iff_eq_none.mp ha
            refine ⟨?_, ?_⟩
            · unfold cardTotal pilesHandsTotal handsTotal at hc ⊢
              rw [activeCount_eq_zero hact] at hc
              rw [activeCount_eq_zero rfl]
              dsimp only
              omega
            · intro habs
              simp at habs

theorem getD_eq_default_of_le (l : List Player) (i : Nat) (d : Player)
    (h : l.length ≤ i) : l.getD i d = d := by
  simp [List.getD, List.getElem?_eq_none h]

theorem sum_hands_set_same_length (l : List Player) (i : Nat) (p : Player)
    (hl : p.hand.length = (l.getD i default).hand.length) :
    ((l.set i p).map (fun q => q.hand.length)).sum
      = (l.map (fun q => q.hand.length)).sum := by
  by_cases h : i < l.length
  · have := sum_hands_set l i p h
    omega
  · rw [List.set_eq_of_length_le (by omega)]

theorem mECP_activeDraw (room : Room) (sid : String) (card : Card) :
    (maybeEnterCenterPower room sid card).1.activeDraw = room.activeDraw := by
  rw [maybeEnterCenterPower]
  split <;> rfl

theorem refill_spec (room : Room) (sh : List Card → List Card) (hsh : ShuffleOK sh)
    (r1 : Room) (e : Option String) (hr : refillDrawPileIfNeeded room sh = (r1, e)) :
    (e ≠ none → r1 = room)
    ∧ (e = none →
        r1.players = room.players ∧ r1.activeDraw = room.activeDraw
        ∧ r1.phase = room.phase ∧ r1.started = room.started
        ∧ r1.pending = room.pending ∧ r1.centerPower = room.centerPower
        ∧ r1.drawPile.length + r1.discardPile.length
            = room.drawPile.length + room.discardPile.length
        ∧ 0 < r1.drawPile.length) := by
  rw [refillDrawPileIfNeeded] at hr
  split at hr
  case isTrue hgt =>
    injection hr with h1 h2
    subst h1
    subst h2
    exact ⟨fun h => absurd rfl h,
      fun _ => ⟨rfl, rfl, rfl, rfl, rfl, rfl, rfl, by omega⟩⟩
  case isFalse hle =>
    split at hr
    · injection hr with h1 h2
      subst h1
      subst h2
      exact ⟨fun _ => rfl, fun h => absurd h (by simp)⟩
    case isFalse hne =>
      injection hr with h1 h2
      subst h1
      subst h2
      refine ⟨fun h => absurd rfl h, fun _ => ⟨rfl, rfl, rfl, rfl, rfl, rfl, ?_, ?_⟩⟩
      · dsimp only
        rw [(hsh room.discardPile).length_eq]
        simp only [List.length_nil]
        omega
      · dsimp only
        rw [(hsh room.discardPile).length_eq]
        omega

theorem inv_turnTake {room : Room} (sid : String) (source : Option String)
    (sh : List Card → List Card) (hsh : ShuffleOK sh) (h : Inv room) :
    Inv (turnTake room sid source sh).1 := by
  rw [turnTake]
  split
  · exact h
  split
  · exact h
  split
  · exact h
  case isFalse hacts =>
  split
  · exact h
  split
  · exact h
  rcases hr : refillDrawPileIfNeeded room sh with ⟨r1, e⟩
  have hspec := refill_spec room sh hsh r1 e hr
  cases e with
  | some err =>
    dsimp only
    rw [hspec.1 (by simp)]
    exact h
  | none =>
    obtain ⟨hpl, had, -, hst, -, -, hlen, hpos⟩ := hspec.2 rfl
    dsimp only
    cases hlast : r1.drawPile.getLast? with
    | none =>
      exact absurd (List.getLast?_eq_none_iff.mp hlast)
        (by intro he; rw [he] at hpos; simp at hpos)
    | some card =>
      intro hs
      have hs' : room.started = true := by rw [← hst]; exact hs
      obtain ⟨hc, -⟩ := h hs'
      have hact : room.activeDraw = none := Option.not_isSome_iff_eq_none.mp hacts
      refine ⟨?_, fun _ => rfl⟩
      unfold cardTotal pilesHandsTotal handsTotal at hc ⊢
      rw [activeCount_eq_zero hact] at hc
      rw [activeCount_eq_one rfl]
      dsimp only
      rw [List.length_dropLast, hpl]
      omega

theorem inv_turnSwap {room : Room} (sid : String) (hi : Int) (h : Inv room) :
    Inv (turnSwap room sid hi).1 := by
  rw [turnSwap]
  split
  · exact h
  case isFalse hph =>
  rw [not_not] at hph
  split
  · exact h
  case isFalse hturn =>
  rw [not_not] at hturn
  cases had : room.activeDraw with
  | none => exact h
  | some ad =>
    dsimp only
    split
    · exact h
    · split
      · exact h
      case isFalse hbound =>
        have hlt : room.turnIndex < room.players.length := currentTurn_lt hturn
        have hInv1 : Inv { room with
            players := room.players.set room.turnIndex
              { room.players.getD room.turnIndex default with
                hand := (room.players.getD room.turnIndex default).hand.set hi.toNat ad.card }
            discardPile := room.discardPile ++
              [(room.players.getD room.turnIndex default).hand.getD hi.toNat default]
            activeDraw := none
            log := room.log ++
              [(room.players.getD room.turnIndex default).name ++
                " swapped and played a card to center."] } := by
          intro hs
          obtain ⟨hc, -⟩ := h hs
          refine ⟨?_, ?_⟩
          · have hsum := sum_hands_set_same_length room.players room.turnIndex
              { room.players.getD room.turnIndex default with
                hand := (room.players.getD room.turnIndex default).hand.set hi.toNat ad.card }
              (by simp)
            unfold cardTotal pilesHandsTotal handsTotal at hc ⊢
            rw [activeCount_eq_one had] at hc
            rw [activeCount_eq_zero rfl]
            dsimp only
            rw [List.length_append]
            dsimp only at hsum
            simp only [List.length_cons, List.length_nil]
            omega
          · intro habs
            simp at habs
        split
        · exact inv_maybeEnterCenterPower sid _ hInv1 (fun _ => rfl)
        · exact inv_advanceTurn
            (inv_maybeEnterCenterPower sid _ hInv1 (fun _ => rfl))
            (fun _ => by rw [mECP_activeDraw])

theorem inv_turnDiscardDrawn {room : Room} (sid : String) (h : Inv room) :
    Inv (turnDiscardDrawn room sid).1 := by
  rw [turnDiscardDrawn]
  split
  · exact h
  split
  · exact h
  cases had : room.activeDraw with
  | none => exact h
  | some ad =>
    dsimp only
    split
    · exact h
    · have hInv1 : Inv { room with
          discardPile := room.discardPile ++ [ad.card]
          activeDraw := none
          log := room.log ++
            [playerNameAt room room.turnIndex ++ " played drawn card to center."] } := by
        intro hs
        obtain ⟨hc, -⟩ := h hs
        refine ⟨?_, ?_⟩
        · unfold cardTotal pilesHandsTotal handsTotal at hc ⊢
          rw [activeCount_eq_one had] at hc
          rw [activeCount_eq_zero rfl]
          dsimp only
          rw [List.length_append]
          simp only [List.length_cons, List.length_nil]
          omega
        · intro habs
          simp at habs
      split
      · exact inv_maybeEnterCenterPower sid _ hInv1 (fun _ => rfl)
      · exact inv_advanceTurn
          (inv_maybeEnterCenterPower sid _ hInv1 (fun _ => rfl))
          (fun _ => by rw [mECP_activeDraw])

theorem inv_centerPowerSkip {room : Room} (sid : String) (h : Inv room) :
    Inv (centerPowerSkip room sid).1 := by
  rw [centerPowerSkip]
  split
  · exact h
  case isFalse hph =>
  rw [not_not] at hph
  cases hcp : room.centerPower with
  | none => exact h
  | some cp =>
    dsimp only
    split
    · exact h
    · refine inv_advanceTurn (fun hs => h hs) ?_
      intro hs
      obtain ⟨-, h2⟩ := h hs
      by_cases ha : room.activeDraw.isSome
      · have := h2 ha
        rw [hph] at this
        exact absurd this (by decide)
      · exact Option.not_isSome_iff_eq_none.mp ha

theorem inv_powerPeekOwn {room : Room} (sid : String) (hi : Int) (h : Inv room) :
    Inv (powerPeekOwn room sid hi).1 := by
  rw [powerPeekOwn]
  split
  · exact h
  split
  · exact h
  cases had : room.activeDraw with
  | none => exact h
  | some ad =>
    dsimp only
    split
    · exact h
    · split
      · exact h
      · refine inv_advanceTurn ?_ (fun _ => rfl)
        intro hs
        obtain ⟨hc, -⟩ := h hs
        refine ⟨?_, ?_⟩
        · unfold cardTotal pilesHandsTotal handsTotal at hc ⊢
          rw [activeCount_eq_one had] at hc
          rw [activeCount_eq_zero rfl]
          dsimp only
          rw [List.length_append]
          simp only [List.length_cons, List.length_nil]
          omega
        · intro habs
          simp at habs

theorem inv_powerPeekOpp {room : Room} (sid : String) (oi : Int) (h : Inv room) :
    Inv (powerPeekOpp room sid oi).1 := by
  rw [powerPeekOpp]
  split
  · exact h
  split
  · exact h
  cases had : room.activeDraw with
  | none => exact h
  | some ad =>
    dsimp only
    split
    · exact h
    · split
      · exact h
      · refine inv_advanceTurn ?_ (fun _ => rfl)
        intro hs
        obtain ⟨hc, -⟩ := h hs
        refine ⟨?_, ?_⟩
        · unfold cardTotal pilesHandsTotal handsTotal at hc ⊢
          rw [activeCount_eq_one had] at hc
          rw [activeCount_eq_zero rfl]
          dsimp only
          rw [List.length_append]
          simp only [List.length_cons, List.length_nil]
          omega
        · intro habs
          simp at habs

theorem inv_powerJackSkip {room : Room} (sid : String) (h : Inv room) :
    Inv (powerJackSkip room sid).1 := by
  rw [powerJackSkip]
  split
  · exact h
  split
  · exact h
  cases had : room.activeDraw with
  | none => exact h
  | some ad =>
    dsimp only
    split
    · exact h
    · refine inv_advanceTurn ?_ (fun _ => rfl)
      intro hs
      obtain ⟨hc, -⟩ := h hs
      refine ⟨?_, ?_⟩
      · unfold cardTotal pilesHandsTotal handsTotal at hc ⊢
        rw [activeCount_eq_one had] at hc
        rw [activeCount_eq_zero rfl]
        dsimp only
        rw [List.length_append]
        simp only [List.length_cons, List.length_nil]
        omega
      · intro habs
        simp at habs

theorem sum_double_swap (l : List Player) (m o : Nat) (hmo : m ≠ o)
    (me1 opp1 : Player)
    (hme : me1.hand.length = (l.getD m default).hand.length)
    (hopp : opp1.hand.length = (l.getD o default).hand.length) :
    (((l.set m me1).set o opp1).map (fun q => q.hand.length)).sum
      = (l.map (fun q => q.hand.length)).sum := by
  have h1 : ((l.set m me1).map (fun q => q.hand.length)).sum
      = (l.map (fun q => q.hand.length)).sum :=
    sum_hands_set_same_length l m me1 hme
  have h2 : (((l.set m me1).set o opp1).map (fun q => q.hand.length)).sum
      = ((l.set m me1).map (fun q => q.hand.length)).sum := by
    refine sum_hands_set_same_length _ o opp1 ?_
    rw [getD_set_ne l m o me1 default hmo]
    exact hopp
  omega

theorem inv_powerQueenUnseenSwap {room : Room} (sid : String) (mi oi : Int)
    (h : Inv room) : Inv (powerQueenUnseenSwap room sid mi oi).1 := by
  rw [powerQueenUnseenSwap]
  split
  · exact h
  split
  · exact h
  cases had : room.activeDraw with
  | none => exact h
  | some ad =>
    dsimp only
    split
    · exact h
    · split
      · exact h
      · split
        · exact h
        · refine inv_advanceTurn ?_ (fun _ => rfl)
          intro hs
          obtain ⟨hc, -⟩ := h hs
          refine ⟨?_, ?_⟩
          · have hmo : room.turnIndex ≠ (room.turnIndex + 1) % 2 := by omega
            have hsum := sum_double_swap room.players room.turnIndex
              ((room.turnIndex + 1) % 2) hmo
              { room.players.getD room.turnIndex default with
                hand := (room.players.getD room.turnIndex default).hand.set mi.toNat
                  ((room.players.getD ((room.turnIndex + 1) % 2) default).hand.getD
                    oi.toNat default) }
              { room.players.getD ((room.turnIndex + 1) % 2) default with
                hand := (room.players.getD ((room.turnIndex + 1) % 2) default).hand.set
                  oi.toNat
                  ((room.players.getD room.turnIndex default).hand.getD mi.toNat default) }
              (by simp) (by simp)
            unfold cardTotal pilesHandsTotal handsTotal at hc ⊢
            rw [activeCount_eq_one had] at hc
            rw [activeCount_eq_zero rfl]
            dsimp only
            rw [List.length_append]
            dsimp only at hsum
            simp only [List.length_cons, List.length_nil]
            omega
          · intro habs
            simp at habs

theorem inv_powerKingPreview {room : Room} (sid : String) (mi oi : Int)
    (h : Inv room) : Inv (powerKingPreview room sid mi oi).1 := by
  rw [powerKingPreview]
  split
  · exact h
  split
  · exact h
  cases had : room.activeDraw with
  | none => exact h
  | some ad =>
    dsimp only
    split
    · exact h
    · split
      · exact h
      · split
        · exact h
        · split
          · exact h
          · intro hs
            obtain ⟨hc, h2⟩ := h hs
            refine ⟨?_, ?_⟩
            · unfold cardTotal pilesHandsTotal handsTotal at hc ⊢
              rw [activeCount_eq_one had] at hc
              rw [activeCount_eq_one rfl]
              dsimp only
              omega
            · intro _
              exact h2 (by rw [had]; rfl)

theorem jsWrite_eq_set (l : List Card) (i : Int) (v : Card)
    (h0 : ¬ i < 0) (h : i.toNat < l.length) : jsWrite l i v = l.set i.toNat v := by
  rw [jsWrite, if_neg h0, if_pos h]

/-- Conservation holds through `power:kingConfirm` only while the pending
indices are still within the hand bounds.  `burn:attempt` carries no pending
check and can shrink a hand after `power:kingPreview` validated the indices,
and the confirm's stale array write then extends a hand and breaks the
count — there is no unconditional `Inv`-preservation lemma for this
handler; the C1 development below exhibits the violation. -/
theorem inv_powerKingConfirm_inBounds {room : Room} (sid : String) (confirm : Bool)
    (hbound : ∀ pend, room.pending = some pend →
      ¬ pend.myIndex < 0
      ∧ pend.myIndex.toNat < (room.players.getD room.turnIndex default).hand.length
      ∧ ¬ pend.oppIndex < 0
      ∧ pend.oppIndex.toNat <
          (room.players.getD ((room.turnIndex + 1) % 2) default).hand.length)
    (h : Inv room) : Inv (powerKingConfirm room sid confirm).1 := by
  rw [powerKingConfirm]
  split
  · exact h
  split
  · exact h
  cases had : room.activeDraw with
  | none => exact h
  | some ad =>
    dsimp only
    cases hpd : room.pending with
    | none => exact h
    | some pend =>
      dsimp only
      obtain ⟨hb1, hb2, hb3, hb4⟩ := hbound pend hpd
      split
      · exact h
      · split
        · exact h
        · cases confirm with
          | false =>
            rw [if_neg (show ¬(false = true) by decide)]
            dsimp only
            refine inv_advanceTurn ?_ (fun _ => rfl)
            intro hs
            obtain ⟨hc, -⟩ := h hs
            refine ⟨?_, ?_⟩
            · unfold cardTotal pilesHandsTotal handsTotal at hc ⊢
              rw [activeCount_eq_one had] at hc
              rw [activeCount_eq_zero rfl]
              dsimp only
              rw [List.length_append]
              simp only [List.length_cons, List.length_nil]
              omega
            · intro habs
              simp at habs
          | true =>
            rw [if_pos (show true = true from rfl)]
            dsimp only
            rw [jsWrite_eq_set _ _ _ hb1 hb2, jsWrite_eq_set _ _ _ hb3 hb4]
            refine inv_advanceTurn ?_ (fun _ => rfl)
            intro hs
            obtain ⟨hc, -⟩ := h hs
            refine ⟨?_, ?_⟩
            · have hmo : room.turnIndex ≠ (room.turnIndex + 1) % 2 := by omega
              have hsum := sum_double_swap room.players room.turnIndex
                ((room.turnIndex + 1) % 2) hmo
                { room.players.getD room.turnIndex default with
                  hand := (room.players.getD room.turnIndex default).hand.set
                    pend.myIndex.toNat
                    (jsRead (room.players.getD ((room.turnIndex + 1) % 2) default).hand
                      pend.oppIndex) }
                { room.players.getD ((room.turnIndex + 1) % 2) default with
                  hand := (room.players.getD ((room.turnIndex + 1) % 2) default).hand.set
                    pend.oppIndex.toNat
                    (jsRead (room.players.getD room.turnIndex default).hand
                      pend.myIndex) }
                (by simp) (by simp)
              unfold cardTotal pilesHandsTotal handsTotal at hc ⊢
              rw [activeCount_eq_one had] at hc
              rw [activeCount_eq_zero rfl]
              dsimp only
              rw [List.length_append]
              dsimp only at hsum
              simp only [List.length_cons, List.length_nil]
              omega
            · intro habs
              simp at habs

theorem requireCenterPower_phase {room : Room} {sid : String} {c : Card}
    (h : requireCenterPower room sid = .ok c) : room.phase = "CENTER_POWER" := by
  rw [requireCenterPower] at h
  split at h
  · exact absurd h (by simp)
  case isFalse hph =>
    rw [not_not] at hph
    exact hph

theorem activeDraw_none_of_centerPhase {room : Room} (h : Inv room)
    (hph : room.phase = "CENTER_POWER") (hs : room.started = true) :
    room.activeDraw = none := by
  obtain ⟨-, h2⟩ := h hs
  by_cases ha : room.activeDraw.isSome
  · have := h2 ha
    rw [hph] at this
    exact absurd this (by decide)
  · exact Option.not_isSome_iff_eq_none.mp ha

theorem inv_centerPeekOwn {room : Room} (sid : String) (hi : Int) (h : Inv room) :
    Inv (centerPeekOwn room sid hi).1 := by
  rw [centerPeekOwn]
  split
  · exact h
  cases hrc : requireCenterPower room sid with
  | error e => exact h
  | ok c =>
    dsimp only
    split
    · exact h
    · split
      · exact h
      · exact inv_advanceTurn (fun hs => h hs)
          (fun hs => @activeDraw_none_of_centerPhase room h
            (requireCenterPower_phase hrc) hs)

theorem inv_centerPeekOpp {room : Room} (sid : String) (oi : Int) (h : Inv room) :
    Inv (centerPeekOpp room sid oi).1 := by
  rw [centerPeekOpp]
  split
  · exact h
  cases hrc : requireCenterPower room sid with
  | error e => exact h
  | ok c =>
    dsimp only
    split
    · exact h
    · split
      · exact h
      · exact inv_advanceTurn (fun hs => h hs)
          (fun hs => @activeDraw_none_of_centerPhase room h
            (requireCenterPower_phase hrc) hs)

theorem inv_centerJackSkip {room : Room} (sid : String) (h : Inv room) :
    Inv (centerJackSkip room sid).1 := by
  rw [centerJackSkip]
  split
  · exact h
  cases hrc : requireCenterPower room sid with
  | error e => exact h
  | ok c =>
    dsimp only
    split
    · exact h
    · exact inv_advanceTurn (fun hs => h hs)
        (fun hs => @activeDraw_none_of_centerPhase room h
          (requireCenterPower_phase hrc) hs)

theorem inv_centerQueenUnseenSwap {room : Room} (sid : String) (mi oi : Int)
    (h : Inv room) : Inv (centerQueenUnseenSwap room sid mi oi).1 := by
  rw [centerQueenUnseenSwap]
  split
  · exact h
  cases hrc : requireCenterPower room sid with
  | error e => exact h
  | ok c =>
    dsimp only
    split
    · exact h
    · split
      · exact h
      · split
        · exact h
        · have hph := requireCenterPower_phase hrc
          have hInv1 : Inv { room with
              players := (room.players.set room.turnIndex
                { room.players.getD room.turnIndex default with
                  hand := (room.players.getD room.turnIndex default).hand.set mi.toNat
                    ((room.players.getD ((room.turnIndex + 1) % 2) default).hand.getD
                      oi.toNat default) }).set ((room.turnIndex + 1) % 2)
                { room.players.getD ((room.turnIndex + 1) % 2) default with
                  hand := (room.players.getD ((room.turnIndex + 1) % 2) default).hand.set
                    oi.toNat
                    ((room.players.getD room.turnIndex default).hand.getD mi.toNat default) }
              centerPower := none
              log := room.log ++
                [(room.players.getD room.turnIndex default).name ++
                  " used CENTER Queen (unseen swap)."] } := by
            intro hs
            obtain ⟨hc, h2⟩ := h hs
            refine ⟨?_, ?_⟩
            · have hmo : room.turnIndex ≠ (room.turnIndex + 1) % 2 := by omega
              have hsum := sum_double_swap room.players room.turnIndex
                ((room.turnIndex + 1) % 2) hmo
                { room.players.getD room.turnIndex default with
                  hand := (room.players.getD room.turnIndex default).hand.set mi.toNat
                    ((room.players.getD ((room.turnIndex + 1) % 2) default).hand.getD
                      oi.toNat default) }
                { room.players.getD ((room.turnIndex + 1) % 2) default with
                  hand := (room.players.getD ((room.turnIndex + 1) % 2) default).hand.set
                    oi.toNat
                    ((room.players.getD room.turnIndex default).hand.getD mi.toNat default) }
                (by simp) (by simp)
              unfold cardTotal pilesHandsTotal handsTotal activeCount at hc ⊢
              dsimp only at hsum ⊢
              omega
            · intro habs
              exact h2 habs
          exact inv_advanceTurn hInv1
            (fun hs => activeDraw_none_of_centerPhase hInv1 hph hs)

theorem inv_disconnectRoom {room : Room} (sid : String) {r2 : Room}
    (hd : disconnectRoom room sid = some r2) (h : Inv room) : Inv r2 := by
  rw [disconnectRoom] at hd
  cases hf : jsFindIndex (fun p => p.socketId == sid) room.players with
  | none =>
    rw [hf] at hd
    injection hd with h1
    subst h1
    exact h
  | some idx =>
    rw [hf] at hd
    dsimp only at hd
    split at hd
    · cases hd
    · injection hd with h1
      subst h1
      intro hs
      simp at hs

theorem inv_burnAttempt {room : Room} (sid target : String) (i g : Int)
    (sh : List Card → List Card) (hsh : ShuffleOK sh) (h : Inv room) :
    Inv (burnAttempt room sid target i g sh).1 := by
  rw [burnAttempt]
  split
  · exact h
  cases htop : room.discardPile.getLast? with
  | none => exact h
  | some top =>
    dsimp only
    cases hf : jsFindIndex (fun p => p.socketId == sid) room.players with
    | none => exact h
    | some burnerIdx =>
      dsimp only
      have hblt := jsFindIndex_lt_length hf
      split
      case isTrue htg =>
        -- target = "self"
        split
        · exact h
        case isFalse hbound =>
          push_neg at hbound
          have hitn : i.toNat < (room.players.getD burnerIdx default).hand.length := by
            omega
          split
          case isTrue hrank =>
            intro hs
            obtain ⟨hc, h2⟩ := h hs
            refine ⟨?_, h2⟩
            have hsum := sum_hands_set room.players burnerIdx
              { room.players.getD burnerIdx default with
                hand := (room.players.getD burnerIdx default).hand.eraseIdx i.toNat } hblt
            have herase := List.length_eraseIdx_add_one
              (l := (room.players.getD burnerIdx default).hand) (i := i.toNat) hitn
            unfold cardTotal pilesHandsTotal handsTotal activeCount at hc ⊢
            dsimp only at hsum ⊢
            rw [List.length_append]
            simp only [List.length_cons, List.length_nil]
            omega
          case isFalse hrank =>
            rcases hr : refillDrawPileIfNeeded room sh with ⟨r1, e⟩
            have hspec := refill_spec room sh hsh r1 e hr
            cases e with
            | some err =>
              dsimp only
              rw [hspec.1 (by simp)]
              exact h
            | none =>
              obtain ⟨hpl, had, hph, hst, -, -, hlen, hpos⟩ := hspec.2 rfl
              dsimp only
              cases hlast : r1.drawPile.getLast? with
              | none =>
                exact absurd (List.getLast?_eq_none_iff.mp hlast)
                  (by intro he; rw [he] at hpos; simp at hpos)
              | some penalty =>
                intro hs
                have hs' : room.started = true := by rw [← hst]; exact hs
                obtain ⟨hc, h2⟩ := h hs'
                have hblt1 : burnerIdx < r1.players.length := by rw [hpl]; exact hblt
                have hsum := sum_hands_set r1.players burnerIdx
                  { r1.players.getD burnerIdx default with
                    hand := (r1.players.getD burnerIdx default).hand ++ [penalty] } hblt1
                refine ⟨?_, ?_⟩
                · unfold cardTotal pilesHandsTotal handsTotal activeCount at hc ⊢
                  dsimp only at hsum ⊢
                  rw [List.length_dropLast, hpl] at *
                  rw [had]
                  simp only [List.length_append, List.length_cons, List.length_nil] at hsum ⊢
                  omega
                · intro habs
                  rw [had] at habs
                  rw [hph]
                  exact h2 habs
      case isFalse htg =>
        split
        case isTrue htg2 =>
          -- target = "opp"
          split
          · exact h
          case isFalse hboundv =>
          split
          · exact h
          case isFalse hboundg =>
            push_neg at hboundv hboundg
            have hvlt : (burnerIdx + 1) % 2 < room.players.length := by
              by_contra hge
              push_neg at hge
              rw [getD_eq_default_of_le _ _ _ hge] at hboundv
              obtain ⟨h1, h2'⟩ := hboundv
              simp only [show (default : Player).hand = [] from rfl, List.length_nil] at h2'
              omega
            have hvitn : i.toNat < (room.players.getD ((burnerIdx + 1) % 2) default).hand.length := by
              omega
            have hgitn : g.toNat < (room.players.getD burnerIdx default).hand.length := by
              omega
            have hbv : (burnerIdx + 1) % 2 ≠ burnerIdx := by omega
            split
            case isTrue hrank =>
              intro hs
              obtain ⟨hc, h2⟩ := h hs
              refine ⟨?_, h2⟩
              have herasev := List.length_eraseIdx_add_one
                (l := (room.players.getD ((burnerIdx + 1) % 2) default).hand)
                (i := i.toNat) hvitn
              have heraseg := List.length_eraseIdx_add_one
                (l := (room.players.getD burnerIdx default).hand) (i := g.toNat) hgitn
              have hsum1 : ((room.players.set ((burnerIdx + 1) % 2)
                  { room.players.getD ((burnerIdx + 1) % 2) default with
                    hand := (room.players.getD ((burnerIdx + 1) % 2) default).hand.eraseIdx
                        i.toNat ++
                      [(room.players.getD burnerIdx default).hand.getD g.toNat default] }).map
                  (fun q => q.hand.length)).sum
                  = (room.players.map (fun q => q.hand.length)).sum := by
                refine sum_hands_set_same_length _ _ _ ?_
                simp only [List.length_append, List.length_cons, List.length_nil]
                omega
              have hsum2 := sum_hands_set (room.players.set ((burnerIdx + 1) % 2)
                  { room.players.getD ((burnerIdx + 1) % 2) default with
                    hand := (room.players.getD ((burnerIdx + 1) % 2) default).hand.eraseIdx
                        i.toNat ++
                      [(room.players.getD burnerIdx default).hand.getD g.toNat default] })
                burnerIdx
                { room.players.getD burnerIdx default with
                  hand := (room.players.getD burnerIdx default).hand.eraseIdx g.toNat }
                (by simpa using hblt)
              rw [getD_set_ne _ _ _ _ _ hbv] at hsum2
              unfold cardTotal pilesHandsTotal handsTotal activeCount at hc ⊢
              dsimp only at hsum1 hsum2 ⊢
              rw [List.length_append]
              simp only [List.length_cons, List.length_nil]
              omega
            case isFalse hrank =>
              rcases hr : refillDrawPileIfNeeded room sh with ⟨r1, e⟩
              have hspec := refill_spec room sh hsh r1 e hr
              cases e with
              | some err =>
                dsimp only
                rw [hspec.1 (by simp)]
                exact h
              | none =>
                obtain ⟨hpl, had, hph, hst, -, -, hlen, hpos⟩ := hspec.2 rfl
                dsimp only
                cases hlast : r1.drawPile.getLast? with
                | none =>
                  exact absurd (List.getLast?_eq_none_iff.mp hlast)
                    (by intro he; rw [he] at hpos; simp at hpos)
                | some penalty =>
                  intro hs
                  have hs' : room.started = true := by rw [← hst]; exact hs
                  obtain ⟨hc, h2⟩ := h hs'
                  have hblt1 : burnerIdx < r1.players.length := by rw [hpl]; exact hblt
                  have hsum := sum_hands_set r1.players burnerIdx
                    { r1.players.getD burnerIdx default with
                      hand := (r1.players.getD burnerIdx default).hand ++ [penalty] } hblt1
                  refine ⟨?_, ?_⟩
                  · unfold cardTotal pilesHandsTotal handsTotal activeCount at hc ⊢
                    dsimp only at hsum ⊢
                    rw [List.length_dropLast, hpl] at *
                    rw [had]
                    simp only [List.length_append, List.length_cons, List.length_nil] at hsum ⊢
                    omega
                  · intro habs
                    rw [had] at habs
                    rw [hph]
                    exact h2 habs
        case isFalse => exact h

/-- One server event processed against a room: every mutating handler of
the source, with the shuffle quantified over permutations. -/
inductive Step : Room → Room → Prop
  | join (r : Room) (sid n : String) : Step r (roomJoin r sid n).1
  | start (r : Room) (sid : String) (sh : List Card → List Card) (hsh : ShuffleOK sh) :
      Step r (gameStartHandler r sid sh).1
  | bypass (r : Room) (sid : String) : Step r (roomBypass r sid).1
  | valno (r : Room) : Step r (valNo r).1
  | valyes (r : Room) : Step r (valYes r).1
  | peek (r : Room) (sid : String) (i : Int) : Step r (gamePeek r sid i).1
  | take (r : Room) (sid : String) (src : Option String) (sh : List Card → List Card)
      (hsh : ShuffleOK sh) : Step r (turnTake r sid src sh).1
  | swap (r : Room) (sid : String) (i : Int) : Step r (turnSwap r sid i).1
  | discardDrawn (r : Room) (sid : String) : Step r (turnDiscardDrawn r sid).1
  | cpSkip (r : Room) (sid : String) : Step r (centerPowerSkip r sid).1
  | cabo (r : Room) (sid : String) : Step r (turnCabo r sid).1
  | burn (r : Room) (sid tgt : String) (i g : Int) (sh : List Card → List Card)
      (hsh : ShuffleOK sh) : Step r (burnAttempt r sid tgt i g sh).1
  | pPeekOwn (r : Room) (sid : String) (i : Int) : Step r (powerPeekOwn r sid i).1
  | pPeekOpp (r : Room) (sid : String) (i : Int) : Step r (powerPeekOpp r sid i).1
  | pJack (r : Room) (sid : String) : Step r (powerJackSkip r sid).1
  | pQueen (r : Room) (sid : String) (mi oi : Int) :
      Step r (powerQueenUnseenSwap r sid mi oi).1
  | pKingPrev (r : Room) (sid : String) (mi oi : Int) :
      Step r (powerKingPreview r sid mi oi).1
  | pKingConf (r : Room) (sid : String) (c : Bool) : Step r (powerKingConfirm r sid c).1
  | cPeekOwn (r : Room) (sid : String) (i : Int) : Step r (centerPeekOwn r sid i).1
  | cPeekOpp (r : Room) (sid : String) (i : Int) : Step r (centerPeekOpp r sid i).1
  | cJack (r : Room) (sid : String) : Step r (centerJackSkip r sid).1
  | cQueen (r : Room) (sid : String) (mi oi : Int) :
      Step r (centerQueenUnseenSwap r sid mi oi).1
  | disconnect (r r2 : Room) (sid : String) (h : disconnectRoom r sid = some r2) :
      Step r r2

/-- A room state the server can be in: reachable by events from a freshly
created room. -/
def Reachable (r : Room) : Prop :=
  ∃ id sid hostName, Relation.ReflTransGen Step (createdRoom id sid hostName) r

theorem inv_createdRoom (id sid n : String) : Inv (createdRoom id sid n) := by
  intro hs
  simp [createdRoom] at hs

/-- The concrete trace is a genuine run of the server. -/
theorem trace7_reachable : Reachable trace7 := by
  refine ⟨"R1", "S1", "Alice", ?_⟩
  have s1 : Step trace0 trace1 := Step.join trace0 "S2" "Bob"
  have s2 : Step trace1 trace2 := Step.start trace1 "S1" id shuffleOK_id
  have s3 : Step trace2 trace3 := Step.peek trace2 "S1" 0
  have s4 : Step trace3 trace4 := Step.peek trace3 "S1" 0
  have s5 : Step trace4 trace5 := Step.peek trace4 "S2" 0
  have s6 : Step trace5 trace6 := Step.peek trace5 "S2" 0
  have s7 : Step trace6 trace7 := Step.take trace6 "S1" none id shuffleOK_id
  exact ((((((Relation.ReflTransGen.refl.tail s1).tail s2).tail s3).tail s4).tail
    s5).tail s6).tail s7

/-- Counterexample to C1 as stated: a reachable started room in phase
TURN_DECIDE, holding a drawn card, whose draw pile, discard pile and
hands together hold only 51 cards — not 52. -/
theorem C1_card_conservation_counterexample :
    Reachable trace7 ∧ trace7.started = true ∧ trace7.phase = "TURN_DECIDE"
      ∧ trace7.activeDraw.isSome = true
      ∧ pilesHandsTotal trace7 = 51 :=
  ⟨trace7_reachable, by decide, by decide, by decide, by decide⟩

/-- Cards that the crafted shuffle stacks on top of the deck, listed here in
their `makeDeck` order. -/
def stackedCards : List Card :=
  [{ r := "K", s := "H" }, { r := "2", s := "D" }, { r := "3", s := "D" },
   { r := "4", s := "D" }, { r := "5", s := "D" }, { r := "2", s := "C" },
   { r := "3", s := "C" }, { r := "4", s := "C" }, { r := "5", s := "C" },
   { r := "6", s := "C" }]

/-- Predicate keeping the cards the crafted shuffle leaves under the stack. -/
def notStacked (c : Card) : Bool := !(decide (c ∈ stackedCards))

/-- A legal deck order — any permutation is a possible outcome of the
source's Fisher–Yates `shuffle` — that moves the ten stacked cards to the
top of the deck, preserving relative order elsewhere. -/
def stackedShuffle (l : List Card) : List Card :=
  l.filter notStacked ++ l.filter (fun c => !(notStacked c))

theorem shuffleOK_stacked : ShuffleOK stackedShuffle := fun l =>
  List.filter_append_perm notStacked l

/-- Game start under the stacked deck: Alice (host, S1) is dealt
[6♣, 5♣, 4♣, 3♣], Bob (S2) is dealt [2♣, 5♦, 4♦, 3♦], and the top of the
draw pile reads 2♦ then K♥. -/
def bug2 : Room := (gameStartHandler trace1 "S1" stackedShuffle).1

def bug3 : Room := (gamePeek bug2 "S1" 0).1

def bug4 : Room := (gamePeek bug3 "S1" 0).1

def bug5 : Room := (gamePeek bug4 "S2" 0).1

/-- Peeks exhausted; Alice's turn in TURN_DRAW. -/
def bug6 : Room := (gamePeek bug5 "S2" 0).1

/-- Alice draws the 2♦. -/
def bug7 : Room := (turnTake bug6 "S1" none id).1

/-- Alice plays the drawn 2♦ to the center; Bob's turn. -/
def bug8 : Room := (turnDiscardDrawn bug7 "S1").1

/-- Bob draws the K♥ and holds it in `activeDraw` (phase TURN_DECIDE). -/
def bug9 : Room := (turnTake bug8 "S2" none id).1

/-- Bob opens the King preview on his slot 3 and Alice's slot 0; both
indices are valid at this moment (both hands have four cards). -/
def bug10 : Room := (powerKingPreview bug9 "S2" 3 0).1

/-- With the confirmation still pending, Bob burns his 2♣ onto the 2♦:
his hand shrinks to three cards and the pending index 3 goes stale. -/
def bug11 : Room := (burnAttempt bug10 "S2" "self" 0 0 id).1

/-- Bob confirms the King swap.  The stale assignment `me.hand[3] = ...`
extends his three-card hand to four, and `opp.hand[0] = temp` stores the
JavaScript `undefined` into Alice's hand. -/
def bug12 : Room := (powerKingConfirm bug11 "S2" true).1

/-- The violating run is a genuine run of the server. -/
theorem bug12_reachable : Reachable bug12 := by
  refine ⟨"R1", "S1", "Alice", ?_⟩
  have s1 : Step trace0 trace1 := Step.join trace0 "S2" "Bob"
  have s2 : Step trace1 bug2 := Step.start trace1 "S1" stackedShuffle shuffleOK_stacked
  have s3 : Step bug2 bug3 := Step.peek bug2 "S1" 0
  have s4 : Step bug3 bug4 := Step.peek bug3 "S1" 0
  have s5 : Step bug4 bug5 := Step.peek bug4 "S2" 0
  have s6 : Step bug5 bug6 := Step.peek bug5 "S2" 0
  have s7 : Step bug6 bug7 := Step.take bug6 "S1" none id shuffleOK_id
  have s8 : Step bug7 bug8 := Step.discardDrawn bug7 "S1"
  have s9 : Step bug8 bug9 := Step.take bug8 "S2" none id shuffleOK_id
  have s10 : Step bug9 bug10 := Step.pKingPrev bug9 "S2" 3 0
  have s11 : Step bug10 bug11 := Step.burn bug10 "S2" "self" 0 0 id shuffleOK_id
  have s12 : Step bug11 bug12 := Step.pKingConf bug11 "S2" true
  exact (((((((((((Relation.ReflTransGen.refl.tail s1).tail s2).tail s3).tail
    s4).tail s5).tail s6).tail s7).tail s8).tail s9).tail s10).tail s11).tail s12

/-- C1 fails in the code: card conservation is violated on a reachable
run.  After `power:kingPreview` validates its indices, `burn:attempt`
(which never checks for a pending action) shrinks the acting hand, and
the stale `power:kingConfirm` assignment then extends that hand past its
end while storing the JavaScript `undefined` into the opponent's hand.
In the state reached here no drawn card is held, yet the draw pile, the
discard pile and the hands together hold 53 entries — and one of Alice's
hand slots holds `undefined`, a value that is not a card of the deck.
So the claimed 52-card partition fails even when the held draw is counted
(and `C1_card_conservation_counterexample` above separately shows the
claim's piles-plus-hands count is 51, not 52, while a drawn card is
held). -/
theorem C1_card_conservation_broken :
    Reachable bug12 ∧ bug12.started = true ∧ bug12.activeDraw = none
      ∧ pilesHandsTotal bug12 = 53
      ∧ undefinedCard ∈ (bug12.players.getD 0 default).hand
      ∧ undefinedCard ∉ makeDeck :=
  ⟨bug12_reachable, by decide, by decide, by decide, by decide, by decide⟩

end Kabo
